import Mathlib

/-!
Verification development for the voice conversation core of the
AZ-AI-Challenge-Team-Chiku repository.

The code under scrutiny lives in two files:

* `src/frontend/components/voice/VoiceControls.tsx` — in particular the
  second `useElevenLabsStream` hook in that file (the streaming
  text-to-speech session: `speak`, `checkIfComplete`, `playNextAudio`,
  `stopSpeaking`, the WebSocket listeners and the two `setTimeout`s);
* `src/frontend/hooks/useVoiceConversation.ts` — the conversation turn
  orchestrator (`startListening`, `queryServer`, `conversationTurn`,
  `start`, `stop`, `cleanupMic`).

The development embeds that code as three executable models:

1. `SessState`/`stepS` — the stream session owned by `useElevenLabsStream`:
   the WebSocket reference and closed flag, the decoded-audio playback
   queue, the currently playing source, the pending completion callback
   (`resolveCompleteRef`), the speaking flag, the error signal, and the
   armedness of the 30s safety and 5s connection timeouts.  Ghost fields
   count how many times the pending promise was resolved or rejected and
   record the order in which audio segments started playing.
2. `CapState`/`onResult`/`silenceFire`/`ceilingFire` — one speech-capture
   session of `startListening`, with explicit millisecond deadlines for
   the 1.5s silence timer and the 15s ceiling timer.
3. `OrchState`/`stepO` — the orchestrator: the phase state, the liveness
   flag `isActiveRef`, the microphone/recognition references, the embedded
   stream session, and the list of suspended `conversationTurn` coroutine
   continuations (`pcs`).  JavaScript is single threaded, so a run of the
   system is a sequence of atomic events (listener invocations, timer
   firings, promise continuations); `stepO` is the corresponding step
   function.  A ghost `phaseLog` records each observable `setPhase` update
   (React does not re-render when a state setter receives the current
   value, so consecutive duplicates are not recorded).

Abstractions, stated once here: the `AudioContext` is assumed available
(`ensureAudioContext` always succeeds); decoded audio buffers are
identified by arrival numbers; `queryServer` outcomes are adversarial
`Except` values delivered by `querySettle` events; capture settlement at
the orchestrator level is an adversarial `capSettle` event (the detailed
timing behaviour is the separate `CapState` model); the synchronous
`new WebSocket` constructor-throw path of `speak` is not modelled; the
render-time `ttsError` mirroring in `useVoiceConversation` (a pure
display concern) is not modelled.
-/

/-- JavaScript's `String.prototype.trim`: strip whitespace from both ends.
`String.trim` of the Lean core library does not reduce in the kernel, so
the embedding uses this explicit character-list version. -/
def jsTrim (s : String) : String :=
  ⟨((s.data.dropWhile Char.isWhitespace).reverse.dropWhile Char.isWhitespace).reverse⟩

/-- Environment configuration read by `speak`
(`NEXT_PUBLIC_ELEVENLABS_API_KEY` / `..._VOICE_ID` / `..._MODEL_ID`). -/
structure Cfg where
  apiKey : Option String
  voiceId : Option String
  modelId : Option String
deriving DecidableEq, Repr

/-- State of `wsRef.current`: `absent` is a null reference, `connecting`
a created socket whose `readyState` is not yet `OPEN`, `opened` an open
socket. -/
inductive WsConn
  | absent
  | connecting
  | opened
deriving DecidableEq, Repr

/-- State of one `useElevenLabsStream` hook instance
(`VoiceControls.tsx`, the hook defined from line 267 on).  The first nine
fields mirror `wsRef`, `wsClosedRef`, `audioQueueRef`,
`isPlayingRef`/`currentSourceRef`, `resolveCompleteRef`, `isSpeaking`,
`error`, and the armedness of the `safetyTimeout` (30s) and
`connectionTimeout` (5s) timers of the current `speak` call.  `resolved`,
`rejected` and `played` are ghost observers: how often the pending
promise's `resolve`/`reject` was invoked, and the audio segments in the
order their playback started. -/
structure SessState where
  ws : WsConn
  wsClosed : Bool
  queue : List Nat
  playing : Option Nat
  pending : Bool
  isSpeaking : Bool
  errorMsg : Option String
  safetyT : Bool
  connT : Bool
  resolved : Nat
  rejected : Nat
  played : List Nat
deriving DecidableEq, Repr

/-- A hook instance before any `speak` call. -/
def SessState.fresh : SessState :=
  ⟨WsConn.absent, false, [], none, false, false, none, false, false, 0, 0, []⟩

/-- `checkIfComplete` (VoiceControls.tsx lines 293-306): resolve the
pending completion exactly when the WebSocket has closed, the audio queue
is empty and nothing is playing. -/
def checkIfComplete (s : SessState) : SessState :=
  if s.wsClosed && s.queue.isEmpty && s.playing.isNone && s.pending then
    { s with pending := false, isSpeaking := false, resolved := s.resolved + 1 }
  else s

/-- `playNextAudio` (lines 309-337): do nothing when already playing or
the queue is empty; otherwise shift the head of the queue and start it. -/
def playNextAudio (s : SessState) : SessState :=
  match s.playing, s.queue with
  | some _, _ => s
  | none, [] => s
  | none, a :: rest =>
      { s with queue := rest, playing := some a, played := s.played ++ [a] }

/-- Result of the synchronous prefix of a `speak(text)` call:
`skippedEmpty` — empty trimmed text, the async function returns at once
(the caller's promise resolves as a success); `earlyReturn` — missing
API key or voice id, error signal set, again an immediate successful
resolution; `sessionPending` — a promise was created and
`resolveCompleteRef` now holds its resolver. -/
inductive SpeakOutcome
  | skippedEmpty
  | earlyReturn
  | sessionPending
deriving DecidableEq, Repr

/-- The synchronous prefix of `speak(text)` (lines 344-434): the
empty-text early return, the state reset (`wsClosedRef.current = false`,
`audioQueueRef.current = []`, `setError(null)`, `setIsSpeaking(true)`),
the missing-credential early returns, and otherwise the creation of the
completion promise, the two timeouts and the WebSocket. -/
def speakStart (cfg : Cfg) (text : String) (s : SessState) :
    SpeakOutcome × SessState :=
  if jsTrim text = "" then (SpeakOutcome.skippedEmpty, s)
  else
    let s1 := { s with wsClosed := false, queue := [], errorMsg := none,
                       isSpeaking := true }
    match cfg.apiKey with
    | none =>
        (SpeakOutcome.earlyReturn,
         { s1 with errorMsg := some "ElevenLabs API key not found",
                   isSpeaking := false })
    | some _ =>
        match cfg.voiceId with
        | none =>
            (SpeakOutcome.earlyReturn,
             { s1 with errorMsg := some "ElevenLabs voice ID not found",
                       isSpeaking := false })
        | some _ =>
            (SpeakOutcome.sessionPending,
             { s1 with pending := true, safetyT := true, connT := true,
                       ws := WsConn.connecting })

/-- `stopSpeaking` (lines 558-588): close and null the socket, stop the
current source, clear the queue, set the closed flag, drop `isSpeaking`,
and resolve the pending completion if there is one.  Note that it does
not clear the safety or connection timeouts. -/
def stopSpeakingFn (s : SessState) : SessState :=
  let s1 := { s with ws := WsConn.absent, playing := none, queue := [],
                     wsClosed := true, isSpeaking := false }
  if s1.pending then
    { s1 with pending := false, resolved := s1.resolved + 1 }
  else s1

/-- Events that can reach a stream session: the `open`, `message`
(an audio chunk with its decode success, or the `isFinal` marker),
`error` and `close` listeners, a source's `onended`, the two timer
firings, and a `stopSpeaking` call.  A cleared timer cannot fire, which
is modelled by guarding the firing on the armed flag. -/
inductive SEvent
  | wsOpenEvt
  | audioMsg (seg : Nat) (ok : Bool)
  | finalMsg
  | wsErrorEvt
  | wsCloseEvt
  | srcEnded
  | safetyFire
  | connFire
  | stopSpeak
deriving DecidableEq, Repr

/-- One stream-session event, straight from the listener bodies in
`speak` (lines 436-543), `playNextAudio`'s `onended` (lines 323-334) and
`stopSpeaking`.  `finalMsg` only requests `ws.close()`; the resulting
close is delivered later as a `wsCloseEvt`. -/
def stepS (e : SEvent) (s : SessState) : SessState :=
  match e with
  | SEvent.wsOpenEvt =>
      match s.ws with
      | WsConn.connecting => { s with ws := WsConn.opened, connT := false }
      | _ => s
  | SEvent.audioMsg seg ok =>
      if ok then
        let s1 := { s with queue := s.queue ++ [seg] }
        if s1.playing.isNone then playNextAudio s1 else s1
      else s
  | SEvent.finalMsg => s
  | SEvent.wsErrorEvt =>
      let s1 := { s with safetyT := false, connT := false,
                         errorMsg := some "Failed to connect to speech service",
                         isSpeaking := false }
      if s1.pending then
        { s1 with pending := false, rejected := s1.rejected + 1 }
      else s1
  | SEvent.wsCloseEvt =>
      checkIfComplete
        { s with safetyT := false, connT := false, wsClosed := true,
                 ws := WsConn.absent }
  | SEvent.srcEnded =>
      match s.playing with
      | none => s
      | some _ =>
          let s1 := { s with playing := none }
          if s1.queue.isEmpty then checkIfComplete s1 else playNextAudio s1
  | SEvent.safetyFire =>
      if s.safetyT then
        let s1 := { s with safetyT := false, isSpeaking := false }
        if s1.pending then
          { s1 with pending := false, resolved := s1.resolved + 1 }
        else s1
      else s
  | SEvent.connFire =>
      if s.connT then
        let s1 := { s with connT := false }
        match s1.ws with
        | WsConn.connecting =>
            let s2 := { s1 with errorMsg := some "Failed to connect to ElevenLabs",
                                isSpeaking := false }
            let s3 :=
              if s2.pending then
                { s2 with pending := false, rejected := s2.rejected + 1 }
              else s2
            { s3 with safetyT := false }
        | _ => s1
      else s
  | SEvent.stopSpeak => stopSpeakingFn s

/-- Run a stream session from a state through a list of events. -/
def runS (s : SessState) (tr : List SEvent) : SessState :=
  tr.foldl (fun s e => stepS e s) s

/-- A configuration with all three ElevenLabs variables present. -/
def cfgFull : Cfg := ⟨some "key1", some "voice1", some "model1"⟩

/-- A configuration with the API key missing. -/
def cfgNoKey : Cfg := ⟨none, some "voice1", some "model1"⟩

/-- A configuration with the voice id missing. -/
def cfgNoVoice : Cfg := ⟨some "key1", none, some "model1"⟩

/-- The session state right after a `speak` call with non-empty text and
a full configuration: completion pending, both timers armed, socket
connecting. -/
def sessAfterSpeak : SessState := (speakStart cfgFull "Hello there" SessState.fresh).2

/-- The stream session of C2's counterexample: after `speak`, the socket
opens, one audio chunk arrives and starts playing, then the socket
closes (its close listener clears both timeouts), and no playback-ended
event ever arrives. -/
def sessStarved : SessState :=
  runS sessAfterSpeak [SEvent.wsOpenEvt, SEvent.audioMsg 0 true, SEvent.wsCloseEvt]

/-- A concrete session state satisfying the joint settlement condition
with a completion pending (used as witness input). -/
def sessSettledW : SessState :=
  ⟨WsConn.absent, true, [], none, true, true, none, false, false, 0, 0, [0]⟩

/-- A concrete session state with a pending completion and a queued
segment still unplayed (used as witness input). -/
def sessQueuedW : SessState :=
  ⟨WsConn.opened, false, [5], none, true, true, none, true, true, 0, 0, []⟩

/-- A concrete session state currently playing segment 3 with segment 4
queued (used as witness input). -/
def sessPlayingW : SessState :=
  ⟨WsConn.opened, false, [4], some 3, true, true, none, true, false, 0, 0, [3]⟩

/-- Queue-only events of the playback queue: an audio chunk that decodes
successfully (`message` listener) and a playback-finished callback
(`onended`). -/
inductive QEv
  | enq (seg : Nat)
  | ended
deriving DecidableEq, Repr

/-- Queue events as stream-session events. -/
def QEv.toSEvent : QEv → SEvent
  | QEv.enq seg => SEvent.audioMsg seg true
  | QEv.ended => SEvent.srcEnded

/-- Run a sequence of queue events on the session created by a `speak`
call (queue empty, nothing playing). -/
def runQ (tr : List QEv) : SessState :=
  tr.foldl (fun s e => stepS e.toSEvent s) sessAfterSpeak

/-- The segments enqueued by a queue-event sequence, in order. -/
def enqueuedOf (tr : List QEv) : List Nat :=
  tr.filterMap (fun e => match e with | QEv.enq seg => some seg | QEv.ended => none)

/-- Completion settles at most once: the resolve/reject counters never
exceed one settlement, and while the completion is still pending no
settlement has happened.  This is the inductive invariant behind claim
C2's at-most-once part (every `resolve`/`reject` call site in `speak`
first checks `resolveCompleteRef.current` and then nulls it). -/
def onceInv (s : SessState) : Prop :=
  s.resolved + s.rejected ≤ 1 ∧ (s.pending = true → s.resolved + s.rejected = 0)

/-!
The speech-capture session: `startListening` in
`src/frontend/hooks/useVoiceConversation.ts` (lines 63-174).  Time is in
milliseconds; each timer is modelled by its absolute deadline, and a
timer event can only fire while its deadline is set (clearing a timeout
prevents its callback from running).
-/

/-- Decidable equality for `Except`, needed by the settlement events. -/
def exceptDecEq {ε α : Type} [DecidableEq ε] [DecidableEq α] : DecidableEq (Except ε α)
  | Except.ok a, Except.ok b =>
      if h : a = b then isTrue (h ▸ rfl) else isFalse (fun hc => h (Except.ok.inj hc))
  | Except.ok _, Except.error _ => isFalse (fun hc => Except.noConfusion hc)
  | Except.error _, Except.ok _ => isFalse (fun hc => Except.noConfusion hc)
  | Except.error e, Except.error f =>
      if h : e = f then isTrue (h ▸ rfl) else isFalse (fun hc => h (Except.error.inj hc))

instance {ε α : Type} [DecidableEq ε] [DecidableEq α] : DecidableEq (Except ε α) :=
  exceptDecEq

/-- One speech-capture session: the recognition and media-stream
references, the accumulated `finalTranscript` (append-only), the
display transcription, the silence-timer deadline (`none` when the timer
is not armed), the 15s ceiling deadline, and the promise outcome
(`none` while the promise returned by `startListening` is unsettled). -/
structure CapState where
  recActive : Bool
  micOn : Bool
  finalTranscript : String
  transcription : String
  silenceDeadline : Option Nat
  ceilingDeadline : Nat
  settled : Option (Except String String)
deriving DecidableEq, Repr

/-- A capture session freshly started at time `t0`: microphone acquired,
recognition running, empty transcript, no silence timer yet, ceiling at
`t0 + 15000` (lines 75-168). -/
def startCapture (t0 : Nat) : CapState :=
  ⟨true, true, "", "", none, t0 + 15000, none⟩

/-- `recognition.onresult` (lines 103-142) at time `now`, delivering a
(possibly empty) batch of final text and a batch of interim text: the
silence timer is cleared unconditionally; final text is appended to the
transcript with a trailing space; the display shows the trimmed
concatenation; the silence timer is re-armed to `now + 1500` only when
the batch contained final text. -/
def onResult (newFinal interim : String) (now : Nat) (s : CapState) : CapState :=
  let ft := if newFinal ≠ "" then s.finalTranscript ++ newFinal ++ " " else s.finalTranscript
  { s with finalTranscript := ft,
           transcription := jsTrim (ft ++ interim),
           silenceDeadline := if newFinal ≠ "" then some (now + 1500) else none }

/-- Shared settle path of the silence and ceiling callbacks: run
`cleanupMic()` (stop recognition, stop the media tracks, clear the
silence timer), then resolve with the trimmed transcript when non-empty,
else reject with the given message.  Settling an already-settled promise
is a no-op. -/
def settleWith (err : String) (s : CapState) : CapState :=
  let s1 : CapState := { s with recActive := false, micOn := false, silenceDeadline := none }
  let result := jsTrim s1.finalTranscript
  if s1.settled.isSome then s1
  else if result ≠ "" then { s1 with settled := some (Except.ok result) }
  else { s1 with settled := some (Except.error err) }

/-- The silence-timer callback (lines 131-140): only an armed timer can
fire; it settles with reject message "No speech detected" on an empty
transcript. -/
def silenceFire (s : CapState) : CapState :=
  match s.silenceDeadline with
  | none => s
  | some _ => settleWith "No speech detected" s

/-- The 15s ceiling callback (lines 157-168).  Its `setTimeout` handle is
never stored, so it is never cleared; its body is guarded by
`recognitionRef.current`, so it is a no-op after `cleanupMic` has run. -/
def ceilingFire (s : CapState) : CapState :=
  if s.recActive then settleWith "No speech within timeout" s else s

/-!
The conversation turn orchestrator: `useVoiceConversation.ts`.  A run is
a sequence of atomic events; each suspended `await` of a
`conversationTurn` (or `start`) invocation is a coroutine continuation
recorded in `pcs`.  `stop()` does not cancel those continuations — it
only flips `isActiveRef` — so after a `stop()`/`start()` pair an old
continuation may still resume; keeping a list (rather than a single
program counter) makes that behaviour representable.
-/

/-- Orchestrator phase (`type Phase`, line 6). -/
inductive Phase
  | idle
  | listening
  | thinking
  | speaking
  | error
deriving DecidableEq, Repr

/-- Continuation of one suspended `conversationTurn`/`start` invocation:
which `await` it is parked on (`startDelay` = `start`'s `sleep(100)`,
`cooldown` = `sleep(800)`, `restartDelay` = `sleep(200)`, `errorWait` =
the catch block's `sleep(2000)`, `errorIdle` = its `sleep(500)`), or
`finished` when the invocation has returned. -/
inductive TurnPc
  | startDelay
  | awaitCapture
  | awaitQuery
  | awaitSpeak
  | cooldown
  | restartDelay
  | errorWait
  | errorIdle
  | finished
deriving DecidableEq, Repr

/-- Whether a turn invocation has returned. -/
def TurnPc.isDone : TurnPc → Bool
  | TurnPc.finished => true
  | _ => false

/-- Orchestrator state: `phase`, `isActiveRef`, the displayed
transcription, the `error` signal, `mediaStreamRef`/`recognitionRef`/
`silenceTimerRef` as liveness flags, the embedded stream session of
`useElevenLabsStream`, the suspended turn continuations, and the ghost
log of observable phase updates. -/
structure OrchState where
  phase : Phase
  isActive : Bool
  transcription : String
  errorMsg : Option String
  micOn : Bool
  recActive : Bool
  silenceT : Bool
  ss : SessState
  pcs : List TurnPc
  phaseLog : List Phase
deriving DecidableEq, Repr

/-- The hook's initial state. -/
def OrchState.fresh : OrchState :=
  ⟨Phase.idle, false, "", none, false, false, false, SessState.fresh, [], []⟩

/-- `setPhase`, with the ghost log: React skips the re-render when the
value is unchanged, so only actual changes are observable. -/
def setPhaseL (p : Phase) (s : OrchState) : OrchState :=
  { s with phase := p,
           phaseLog := if s.phase = p then s.phaseLog else s.phaseLog ++ [p] }

/-- `cleanupMic` (lines 40-60): stop recognition, stop the media tracks,
clear the silence timer. -/
def cleanupMicFn (s : OrchState) : OrchState :=
  { s with recActive := false, micOn := false, silenceT := false }

/-- Replace the continuation of turn invocation `i`. -/
def setPc (i : Nat) (p : TurnPc) (s : OrchState) : OrchState :=
  { s with pcs := s.pcs.set i p }

/-- The catch block of `conversationTurn` (lines 248-266) up to its first
`await`: when the loop is still active, publish the error, enter the
`error` phase and park on the 2s recovery sleep; otherwise the
invocation just returns. -/
def turnCatch (i : Nat) (msg : String) (s : OrchState) : OrchState :=
  if s.isActive then
    setPc i TurnPc.errorWait (setPhaseL Phase.error { s with errorMsg := some msg })
  else setPc i TurnPc.finished s

/-- The head of `conversationTurn` for invocation `i`: the
`isActiveRef` check (line 207), then the synchronous prefix of
`startListening` (lines 63-99): the guard that throws
"Cannot listen while speaking" while text-to-speech is active — caught
by the catch block — and otherwise `setPhase('listening')`,
`setTranscription('')`, microphone acquisition and recognition start,
parking the invocation on the capture promise. -/
def enterTurn (i : Nat) (s : OrchState) : OrchState :=
  if !s.isActive then setPc i TurnPc.finished s
  else if s.ss.isSpeaking then turnCatch i "Cannot listen while speaking" s
  else
    setPc i TurnPc.awaitCapture
      { (setPhaseL Phase.listening s) with transcription := "", micOn := true, recActive := true }

/-- Resume the invocation parked on the speak promise after the promise
resolved: the `if (!isActiveRef.current) return;` check at line 230,
then the cooldown sleep. -/
def resumeSpeakOk (s : OrchState) : OrchState :=
  match s.pcs.findIdx? (fun p => p = TurnPc.awaitSpeak) with
  | some i => if s.isActive then setPc i TurnPc.cooldown s else setPc i TurnPc.finished s
  | none => s

/-- Resume the invocation parked on the speak promise after the promise
rejected: the rejection is caught by the catch block of
`conversationTurn` with the rejection's message. -/
def resumeSpeakErr (msg : String) (s : OrchState) : OrchState :=
  match s.pcs.findIdx? (fun p => p = TurnPc.awaitSpeak) with
  | some i => turnCatch i msg s
  | none => s

/-- The message carried by a speak-promise rejection: `connectionTimeout`
rejects `Error('Connection timeout')` (line 424), the `error` listener
rejects `Error('WebSocket error')` (line 523). -/
def rejectMsgOf : SEvent → String
  | SEvent.connFire => "Connection timeout"
  | SEvent.wsErrorEvt => "WebSocket error"
  | _ => "Unknown error"

/-- A stream-session event at the orchestrator level: apply it to the
embedded session; if it settled the pending completion, the continuation
parked on the speak promise runs (as a microtask) in the same step. -/
def stepSess (e : SEvent) (s : OrchState) : OrchState :=
  let ss2 := stepS e s.ss
  let s2 := { s with ss := ss2 }
  if s.ss.pending && !ss2.pending then
    if ss2.resolved > s.ss.resolved then resumeSpeakOk s2
    else resumeSpeakErr (rejectMsgOf e) s2
  else s2

/-- Orchestrator events: the public `start()`/`stop()` calls; the firing
of each sleep-continuation of a suspended invocation; the settlement of
its capture promise (`r` is the transcript or the capture error — the
rejection messages of `startListening`) and of its `queryServer` promise
(the reply text or the fetch/empty-reply error); and the stream-session
events.  Settlement events are delivered adversarially: the environment
decides when and with what value a pending promise settles. -/
inductive OEvent
  | startCall
  | stopCall
  | fireStartDelay (i : Nat)
  | capSettle (i : Nat) (r : Except String String)
  | querySettle (i : Nat) (r : Except String String)
  | fireCooldown (i : Nat)
  | fireRestart (i : Nat)
  | fireErrorWait (i : Nat)
  | fireErrorIdle (i : Nat)
  | sessEv (e : SEvent)
deriving DecidableEq, Repr

/-- One orchestrator step.  Each case is the corresponding body in
`useVoiceConversation.ts`: `start` (lines 270-287), `stop`
(lines 290-298), the sleep continuations and promise continuations of
`conversationTurn` (lines 206-267) and the embedded stream session. -/
def stepO (cfg : Cfg) (e : OEvent) (s : OrchState) : OrchState :=
  match e with
  | OEvent.startCall =>
      if s.isActive then s
      else
        { (setPhaseL Phase.idle { s with isActive := true, errorMsg := none }) with
            pcs := s.pcs ++ [TurnPc.startDelay] }
  | OEvent.stopCall =>
      let s1 := cleanupMicFn { s with isActive := false }
      let wasPending := s1.ss.pending
      let s2 := { s1 with ss := stopSpeakingFn s1.ss }
      let s3 := { (setPhaseL Phase.idle s2) with transcription := "", errorMsg := none }
      if wasPending then resumeSpeakOk s3 else s3
  | OEvent.fireStartDelay i =>
      if s.pcs.get? i = some TurnPc.startDelay then enterTurn i s else s
  | OEvent.capSettle i r =>
      if s.pcs.get? i = some TurnPc.awaitCapture then
        let s1 := cleanupMicFn s
        match r with
        | Except.ok _txt =>
            if s1.isActive then setPc i TurnPc.awaitQuery (setPhaseL Phase.thinking s1)
            else setPc i TurnPc.finished s1
        | Except.error msg => turnCatch i msg s1
      else s
  | OEvent.querySettle i r =>
      if s.pcs.get? i = some TurnPc.awaitQuery then
        match r with
        | Except.ok reply =>
            if s.isActive then
              let s1 := setPhaseL Phase.speaking s
              match speakStart cfg reply s1.ss with
              | (SpeakOutcome.sessionPending, ss2) => setPc i TurnPc.awaitSpeak { s1 with ss := ss2 }
              | (_, ss2) => setPc i TurnPc.cooldown { s1 with ss := ss2 }
            else setPc i TurnPc.finished s
        | Except.error msg => turnCatch i msg s
      else s
  | OEvent.fireCooldown i =>
      if s.pcs.get? i = some TurnPc.cooldown then
        if s.isActive then
          setPc i TurnPc.restartDelay { (setPhaseL Phase.idle s) with transcription := "" }
        else setPc i TurnPc.finished s
      else s
  | OEvent.fireRestart i =>
      if s.pcs.get? i = some TurnPc.restartDelay then
        (if s.isActive then enterTurn i s else setPc i TurnPc.finished s)
      else s
  | OEvent.fireErrorWait i =>
      if s.pcs.get? i = some TurnPc.errorWait then
        if s.isActive then
          setPc i TurnPc.errorIdle (setPhaseL Phase.idle { s with errorMsg := none })
        else setPc i TurnPc.finished s
      else s
  | OEvent.fireErrorIdle i =>
      if s.pcs.get? i = some TurnPc.errorIdle then
        (if s.isActive then enterTurn i s else setPc i TurnPc.finished s)
      else s
  | OEvent.sessEv e => stepSess e s

/-- Run the orchestrator from its initial state. -/
def runO (cfg : Cfg) (tr : List OEvent) : OrchState :=
  tr.foldl (fun s e => stepO cfg e s) OrchState.fresh

/-- A capture session is active: the microphone is held or recognition is
running. -/
def CaptureActive (s : OrchState) : Prop :=
  s.micOn = true ∨ s.recActive = true

/-- A stream session is active: a `speak` completion is pending or
text-to-speech playback is flagged as in progress. -/
def StreamActive (s : OrchState) : Prop :=
  s.ss.pending = true ∨ s.ss.isSpeaking = true

/-- At most one position of the continuation list holds an unfinished
invocation. -/
def LiveUnique (l : List TurnPc) : Prop :=
  ∀ i j p q, l.get? i = some p → l.get? j = some q →
    p.isDone = false → q.isDone = false → i = j

/-- Every recorded continuation is either the given one or finished. -/
def OnlyPc (x : TurnPc) (l : List TurnPc) : Prop :=
  ∀ j q, l.get? j = some q → q = x ∨ q.isDone = true

/-- Every recorded invocation has returned. -/
def allDone (s : OrchState) : Bool :=
  s.pcs.all (fun p => p.isDone)

/-- The inductive invariant for mutual exclusion: at most one live
invocation; while the microphone is held the only live invocation is
parked on capture and the stream session is fully inactive; while the
stream session is active the only live invocation is parked on the
speak promise; a pending speak completion implies the speaking flag;
and after `stop()` (while `isActiveRef` is false) neither session is
active. -/
def ExclInv (s : OrchState) : Prop :=
  LiveUnique s.pcs
  ∧ (CaptureActive s →
      OnlyPc TurnPc.awaitCapture s.pcs ∧ s.ss.pending = false ∧ s.ss.isSpeaking = false)
  ∧ (StreamActive s → OnlyPc TurnPc.awaitSpeak s.pcs)
  ∧ (s.ss.pending = true → s.ss.isSpeaking = true)
  ∧ (s.isActive = false →
      s.micOn = false ∧ s.recActive = false ∧ s.ss.pending = false ∧ s.ss.isSpeaking = false)

/-- Reachability under single-loop discipline: `start()` is only called
once every previous turn invocation has returned.  Without that
restriction the mutual-exclusion claim is refuted by
`raceTrace` below. -/
inductive ReachSL (cfg : Cfg) : OrchState → Prop
  | base : ReachSL cfg OrchState.fresh
  | step (e : OEvent) (s : OrchState) (h : ReachSL cfg s)
      (hstart : e = OEvent.startCall → allDone s = true) :
      ReachSL cfg (stepO cfg e s)

/-- The restart race of claim C3: a turn suspends on the server query;
the user stops and immediately restarts the conversation; the new turn
begins listening; then the old turn's fetch resolves and — because
`isActiveRef` is true again — it proceeds into `speak`, opening a stream
session while the new turn's capture session holds the microphone. -/
def raceTrace : List OEvent :=
  [OEvent.startCall,
   OEvent.fireStartDelay 0,
   OEvent.capSettle 0 (Except.ok "whats next"),
   OEvent.stopCall,
   OEvent.startCall,
   OEvent.fireStartDelay 1,
   OEvent.querySettle 0 (Except.ok "You have a meeting at 3pm")]

/-- A successful conversation turn, as in the spec's Scenario A: start,
capture resolves, query resolves, the stream session receives two audio
segments and the terminal signal, both segments finish playing, then the
cooldown and the restart delay elapse and the next turn begins
listening. -/
def okTurnTrace (t r : String) : List OEvent :=
  [OEvent.startCall,
   OEvent.fireStartDelay 0,
   OEvent.capSettle 0 (Except.ok t),
   OEvent.querySettle 0 (Except.ok r),
   OEvent.sessEv SEvent.wsOpenEvt,
   OEvent.sessEv (SEvent.audioMsg 0 true),
   OEvent.sessEv (SEvent.audioMsg 1 true),
   OEvent.sessEv SEvent.finalMsg,
   OEvent.sessEv SEvent.wsCloseEvt,
   OEvent.sessEv SEvent.srcEnded,
   OEvent.sessEv SEvent.srcEnded,
   OEvent.fireCooldown 0,
   OEvent.fireRestart 0]

/-- A state mid-`speak` used by C5's counterexample: one turn has
progressed into speaking, so the 30s safety timeout is armed. -/
def midSpeakState : OrchState :=
  runO cfgFull
    [OEvent.startCall,
     OEvent.fireStartDelay 0,
     OEvent.capSettle 0 (Except.ok "whats next"),
     OEvent.querySettle 0 (Except.ok "You have a meeting at 3pm")]

/-- The observable program state: everything the component renders or the
turn logic branches on — phase, liveness flag, transcription, error
signals, microphone/recognition/silence-timer references, and the stream
session's queue, player, completion, speaking flag, socket, closed flag,
error and settlement counters.  It excludes the bookkeeping that is not
program state: armed-timer flags, coroutine continuations and the ghost
logs. -/
structure ObsState where
  phase : Phase
  isActive : Bool
  transcription : String
  errorMsg : Option String
  micOn : Bool
  recActive : Bool
  silenceT : Bool
  queue : List Nat
  playing : Option Nat
  pending : Bool
  isSpeaking : Bool
  ws : WsConn
  wsClosed : Bool
  ssError : Option String
  resolved : Nat
  rejected : Nat
deriving DecidableEq, Repr

/-- Project the observable program state. -/
def obsOf (s : OrchState) : ObsState :=
  ⟨s.phase, s.isActive, s.transcription, s.errorMsg, s.micOn, s.recActive, s.silenceT,
   s.ss.queue, s.ss.playing, s.ss.pending, s.ss.isSpeaking, s.ss.ws, s.ss.wsClosed,
   s.ss.errorMsg, s.ss.resolved, s.ss.rejected⟩

/-- A concrete orchestrator state with one turn parked on the server
query (used as witness input). -/
def orchAwaitQueryW : OrchState :=
  ⟨Phase.thinking, true, "", none, false, false, false, SessState.fresh,
   [TurnPc.awaitQuery], [Phase.listening, Phase.thinking]⟩

/-- A concrete orchestrator state with one turn parked on the capture
promise (used as witness input). -/
def orchAwaitCaptureW : OrchState :=
  ⟨Phase.listening, true, "", none, true, true, false, SessState.fresh,
   [TurnPc.awaitCapture], [Phase.listening]⟩

/-- A concrete orchestrator state with one turn parked on an in-flight
speak promise (used as witness input). -/
def orchAwaitSpeakW : OrchState :=
  ⟨Phase.speaking, true, "", none, false, false, false, sessAfterSpeak,
   [TurnPc.awaitSpeak], [Phase.listening, Phase.thinking, Phase.speaking]⟩

/-- A concrete orchestrator state with one turn parked on the 2s error
recovery delay (used as witness input). -/
def orchErrorWaitW : OrchState :=
  ⟨Phase.error, true, "", some "No speech detected", false, false, false, SessState.fresh,
   [TurnPc.errorWait], [Phase.listening, Phase.error]⟩

/-!
Theorems.  Helper lemmas come first, then one theorem per claim (with its
witness or counterexample).
-/

/-- The settlement check does not touch the queue, the player, the play
history or the rejection counter. -/
theorem checkIfComplete_fields (s : SessState) :
    (checkIfComplete s).queue = s.queue ∧ (checkIfComplete s).playing = s.playing ∧
      (checkIfComplete s).played = s.played ∧ (checkIfComplete s).rejected = s.rejected := by
  unfold checkIfComplete
  split <;> simp

/-- Starting the next queued segment does not touch the completion
bookkeeping. -/
theorem playNextAudio_book (s : SessState) :
    (playNextAudio s).pending = s.pending ∧ (playNextAudio s).resolved = s.resolved ∧
      (playNextAudio s).rejected = s.rejected ∧ (playNextAudio s).isSpeaking = s.isSpeaking := by
  cases hp : s.playing <;> cases hq : s.queue <;> simp [playNextAudio, hp, hq]

/-- Transfer of the at-most-once invariant along equal bookkeeping. -/
theorem onceInv_of_book {a b : SessState} (hp : a.pending = b.pending)
    (hr : a.resolved = b.resolved) (hj : a.rejected = b.rejected)
    (h : onceInv b) : onceInv a := by
  unfold onceInv at *
  rw [hp, hr, hj]
  exact h

/-- The settlement check preserves the at-most-once invariant. -/
theorem checkIfComplete_once (s : SessState) (h : onceInv s) : onceInv (checkIfComplete s) := by
  obtain ⟨h1, h2⟩ := h
  unfold checkIfComplete
  split
  · rename_i hc
    simp only [Bool.and_eq_true] at hc
    have h0 := h2 hc.2
    refine ⟨?_, ?_⟩
    · show (s.resolved + 1) + s.rejected ≤ 1
      omega
    · intro hfalse
      simp at hfalse
  · exact ⟨h1, h2⟩

/-- Every stream-session event preserves the at-most-once invariant. -/
theorem stepS_once (e : SEvent) (s : SessState) (h : onceInv s) : onceInv (stepS e s) := by
  obtain ⟨h1, h2⟩ := h
  cases e with
  | wsOpenEvt =>
      cases hw : s.ws <;>
        exact onceInv_of_book (by simp [stepS, hw]) (by simp [stepS, hw]) (by simp [stepS, hw])
          ⟨h1, h2⟩
  | audioMsg seg ok =>
      by_cases hok : ok = true
      · simp only [stepS, if_pos hok]
        split
        · rcases playNextAudio_book { s with queue := s.queue ++ [seg] } with ⟨hp, hr, hj, _⟩
          exact onceInv_of_book (by simpa using hp) (by simpa using hr) (by simpa using hj)
            ⟨h1, h2⟩
        · exact onceInv_of_book (by simp) (by simp) (by simp) ⟨h1, h2⟩
      · simp only [stepS, if_neg hok]
        exact ⟨h1, h2⟩
  | finalMsg => exact ⟨h1, h2⟩
  | wsErrorEvt =>
      simp only [stepS]
      split
      · rename_i hp
        have h0 := h2 (by simpa using hp)
        refine ⟨?_, ?_⟩
        · show s.resolved + (s.rejected + 1) ≤ 1
          omega
        · intro hf
          simp at hf
      · exact onceInv_of_book (by simp) (by simp) (by simp) ⟨h1, h2⟩
  | wsCloseEvt =>
      exact checkIfComplete_once _ ⟨by simpa using h1, by simpa using h2⟩
  | srcEnded =>
      cases hp : s.playing with
      | none => simp only [stepS, hp]; exact ⟨h1, h2⟩
      | some a =>
          simp only [stepS, hp]
          split
          · exact checkIfComplete_once _ ⟨by simpa using h1, by simpa using h2⟩
          · rcases playNextAudio_book { s with playing := none } with ⟨hq, hr, hj, _⟩
            exact onceInv_of_book (by simpa using hq) (by simpa using hr) (by simpa using hj)
              ⟨h1, h2⟩
  | safetyFire =>
      simp only [stepS]
      split
      · split
        · rename_i hp
          have h0 := h2 (by simpa using hp)
          refine ⟨?_, ?_⟩
          · show (s.resolved + 1) + s.rejected ≤ 1
            omega
          · intro hf
            simp at hf
        · exact onceInv_of_book (by simp) (by simp) (by simp) ⟨h1, h2⟩
      · exact ⟨h1, h2⟩
  | connFire =>
      simp only [stepS]
      split
      · split
        · split
          · rename_i hp
            have h0 := h2 (by simpa using hp)
            refine ⟨?_, ?_⟩
            · show s.resolved + (s.rejected + 1) ≤ 1
              omega
            · intro hf
              simp at hf
          · exact onceInv_of_book (by simp) (by simp) (by simp) ⟨h1, h2⟩
        · exact onceInv_of_book (by simp) (by simp) (by simp) ⟨h1, h2⟩
      · exact ⟨h1, h2⟩
  | stopSpeak =>
      show onceInv (stopSpeakingFn s)
      simp only [stopSpeakingFn]
      split
      · rename_i hp
        have h0 := h2 (by simpa using hp)
        refine ⟨?_, ?_⟩
        · show (s.resolved + 1) + s.rejected ≤ 1
          omega
        · intro hf
          simp at hf
      · exact onceInv_of_book (by simp) (by simp) (by simp) ⟨h1, h2⟩

/-- The at-most-once invariant holds along every event trace. -/
theorem runS_once (tr : List SEvent) (s : SessState) (h : onceInv s) : onceInv (runS s tr) := by
  induction tr generalizing s with
  | nil => exact h
  | cons e rest ih => exact ih (stepS e s) (stepS_once e s h)

/-- Starting the next queued segment conserves the concatenation of the
play history and the queue. -/
theorem playNextAudio_linear (s : SessState) :
    (playNextAudio s).played ++ (playNextAudio s).queue = s.played ++ s.queue := by
  cases hp : s.playing <;> cases hq : s.queue <;> simp [playNextAudio, hp, hq]

/-- One queue event appends exactly the enqueued segment (if any) to the
concatenation of the play history and the queue. -/
theorem stepQ_linear (e : QEv) (s : SessState) :
    (stepS e.toSEvent s).played ++ (stepS e.toSEvent s).queue
      = s.played ++ s.queue ++ enqueuedOf [e] := by
  cases e with
  | enq seg =>
      cases hp : s.playing with
      | none =>
          have h := playNextAudio_linear { s with queue := s.queue ++ [seg] }
          simp [QEv.toSEvent, stepS, enqueuedOf, hp, List.append_assoc] at h ⊢
          simp [h]
      | some a =>
          simp [QEv.toSEvent, stepS, enqueuedOf, hp, List.append_assoc]
  | ended =>
      cases hp : s.playing with
      | none => simp [QEv.toSEvent, stepS, hp, enqueuedOf]
      | some a =>
          cases hq : s.queue with
          | nil =>
              rcases checkIfComplete_fields { s with queue := [], playing := none } with
                ⟨hc1, _, hc2, _⟩
              simp [QEv.toSEvent, stepS, enqueuedOf, hp, hq, hc1, hc2]
          | cons b rest =>
              have h := playNextAudio_linear { s with playing := none }
              simp [QEv.toSEvent, stepS, enqueuedOf, hp, hq] at h ⊢
              simp [h]

/-- Along any queue-event trace the play history followed by the queue is
exactly the enqueue sequence, in order. -/
theorem foldQ_linear (tr : List QEv) (s : SessState) :
    ((tr.foldl (fun s e => stepS e.toSEvent s) s).played
        ++ (tr.foldl (fun s e => stepS e.toSEvent s) s).queue)
      = s.played ++ s.queue ++ enqueuedOf tr := by
  induction tr generalizing s with
  | nil => simp [enqueuedOf]
  | cons e rest ih =>
      rw [List.foldl_cons, ih, stepQ_linear]
      cases e <;> simp [enqueuedOf, List.append_assoc]

/-- C1: for a `speak(text)` call with non-empty trimmed text, the
settlement mechanism (`checkIfComplete`, invoked after every relevant
event) resolves the pending completion only when the joint condition
holds — WebSocket closed, audio queue empty, nothing playing — and when
it does, it resolves exactly once (the resolver is nulled); in
particular a `close` event arriving while segments are still queued or
playing leaves the completion pending.  The 30s safety timeout, the
rejection paths and `stopSpeaking` are separate settlement paths treated
in claims C2 and C5. -/
theorem completion_fires_only_when_settled (s t u : SessState)
    (hs : (checkIfComplete s).resolved ≠ s.resolved)
    (ht1 : t.pending = true) (ht2 : t.queue ≠ [] ∨ t.playing ≠ none)
    (hu1 : u.wsClosed = true) (hu2 : u.queue = []) (hu3 : u.playing = none)
    (hu4 : u.pending = true) :
    (s.wsClosed = true ∧ s.queue = [] ∧ s.playing = none ∧ s.pending = true ∧
        (checkIfComplete s).resolved = s.resolved + 1 ∧ (checkIfComplete s).pending = false) ∧
      ((stepS SEvent.wsCloseEvt t).pending = true ∧
        (stepS SEvent.wsCloseEvt t).resolved = t.resolved) ∧
      ((checkIfComplete u).resolved = u.resolved + 1 ∧ (checkIfComplete u).pending = false) := by
  refine ⟨?_, ?_, ?_⟩
  · by_cases hc : (s.wsClosed && s.queue.isEmpty && s.playing.isNone && s.pending) = true
    · have hc' := hc
      simp only [Bool.and_eq_true] at hc'
      obtain ⟨⟨⟨hw, hqe⟩, hpn⟩, hpd⟩ := hc'
      refine ⟨hw, by simpa using hqe, by simpa [Option.isNone_iff_eq_none] using hpn, hpd,
        ?_, ?_⟩ <;> simp [checkIfComplete, hw, hqe, hpn, hpd]
    · exact absurd (by simp [checkIfComplete, hc]) hs
  · rcases ht2 with hq | hpl
    · have hqe : t.queue.isEmpty = false := by
        cases hqq : t.queue with
        | nil => exact absurd hqq hq
        | cons c cs => simp
      constructor <;> simp [stepS, checkIfComplete, hqe, ht1]
    · have hpn : t.playing.isNone = false := by
        cases hpp : t.playing with
        | none => exact absurd hpp hpl
        | some c => simp [hpp]
      constructor <;> simp [stepS, checkIfComplete, hpn, ht1]
  · constructor <;> simp [checkIfComplete, hu1, hu2, hu3, hu4]

/-- Witness for `completion_fires_only_when_settled` at concrete states:
`sessSettledW` satisfies the joint condition with a pending completion,
`sessQueuedW` has a pending completion with a queued segment. -/
theorem completion_fires_only_when_settled_witness :
    ((checkIfComplete sessSettledW).resolved ≠ sessSettledW.resolved ∧
        sessQueuedW.pending = true ∧ (sessQueuedW.queue ≠ [] ∨ sessQueuedW.playing ≠ none) ∧
        sessSettledW.wsClosed = true ∧ sessSettledW.queue = [] ∧
        sessSettledW.playing = none ∧ sessSettledW.pending = true) ∧
      ((sessSettledW.wsClosed = true ∧ sessSettledW.queue = [] ∧ sessSettledW.playing = none ∧
          sessSettledW.pending = true ∧
          (checkIfComplete sessSettledW).resolved = sessSettledW.resolved + 1 ∧
          (checkIfComplete sessSettledW).pending = false) ∧
        ((stepS SEvent.wsCloseEvt sessQueuedW).pending = true ∧
          (stepS SEvent.wsCloseEvt sessQueuedW).resolved = sessQueuedW.resolved) ∧
        ((checkIfComplete sessSettledW).resolved = sessSettledW.resolved + 1 ∧
          (checkIfComplete sessSettledW).pending = false)) :=
  ⟨⟨by decide, by decide, by decide, by decide, by decide, by decide, by decide⟩,
    completion_fires_only_when_settled sessSettledW sessQueuedW sessSettledW
      (by decide) (by decide) (by decide) (by decide) (by decide) (by decide) (by decide)⟩

/-- C2 counterexample: after `speak`, the socket opens, one audio chunk
arrives and starts playing, then the socket closes — its close listener
clears both timeouts.  If no playback-ended event ever arrives, the
completion is still pending, nothing has settled, and both timers are
disarmed, so firing them is a no-op: the completion can fire zero times,
refuting "never zero times — the safety timeout force-completes even if
the socket closes but playback events never arrive". -/
theorem speak_completion_can_starve :
    sessStarved.pending = true ∧ sessStarved.resolved = 0 ∧ sessStarved.rejected = 0 ∧
      sessStarved.safetyT = false ∧ sessStarved.connT = false ∧
      stepS SEvent.safetyFire sessStarved = sessStarved ∧
      stepS SEvent.connFire sessStarved = sessStarved := by decide

/-- C2 (amended): for every `speak(text)` call with non-empty trimmed
text, the completion signal fires at most once — along any event trace
the resolve and reject counters never exceed one settlement; and while
the 30s safety timer is still armed its firing force-completes the call
as a success.  But the close and error listeners clear the safety timer,
so if the socket closes while segments are still queued or playing and
no playback-ended event arrives afterwards, the completion fires zero
times (see the counterexample). -/
theorem speak_completion_at_most_once (tr : List SEvent) (s : SessState)
    (h1 : s.safetyT = true) (h2 : s.pending = true) :
    ((runS sessAfterSpeak tr).resolved + (runS sessAfterSpeak tr).rejected ≤ 1) ∧
      ((stepS SEvent.safetyFire s).resolved = s.resolved + 1 ∧
        (stepS SEvent.safetyFire s).pending = false ∧
        (stepS SEvent.safetyFire s).isSpeaking = false) := by
  constructor
  · exact (runS_once tr sessAfterSpeak ⟨by decide, fun _ => by decide⟩).1
  · simp [stepS, h1, h2]

/-- Witness for `speak_completion_at_most_once` at the state right after
a `speak` call and the trace of the counterexample scenario. -/
theorem speak_completion_at_most_once_witness :
    (sessAfterSpeak.safetyT = true ∧ sessAfterSpeak.pending = true) ∧
      (((runS sessAfterSpeak [SEvent.wsOpenEvt, SEvent.audioMsg 0 true, SEvent.wsCloseEvt]).resolved
            + (runS sessAfterSpeak [SEvent.wsOpenEvt, SEvent.audioMsg 0 true, SEvent.wsCloseEvt]).rejected ≤ 1) ∧
        ((stepS SEvent.safetyFire sessAfterSpeak).resolved = sessAfterSpeak.resolved + 1 ∧
          (stepS SEvent.safetyFire sessAfterSpeak).pending = false ∧
          (stepS SEvent.safetyFire sessAfterSpeak).isSpeaking = false)) :=
  ⟨⟨by decide, by decide⟩,
    speak_completion_at_most_once [SEvent.wsOpenEvt, SEvent.audioMsg 0 true, SEvent.wsCloseEvt]
      sessAfterSpeak (by decide) (by decide)⟩

/-- C4: segments play strictly in enqueue order with at most one playing
at a time (the player holds at most one source, and `playNextAudio`
returns early when one is playing): along any queue-event trace the
play-start history followed by the still-queued segments is exactly the
enqueue sequence; enqueuing while nothing is playing immediately starts
the head of the queue; enqueuing while something is playing does not
preempt it; and when a segment finishes with the queue non-empty the
next queued segment starts. -/
theorem playback_queue_fifo (tr : List QEv) (s t : SessState) (n a b : Nat) (rest : List Nat)
    (hs : s.playing = none)
    (ht1 : t.playing = some a) (ht2 : t.queue = b :: rest) :
    ((runQ tr).played ++ (runQ tr).queue = enqueuedOf tr) ∧
      ((stepS (SEvent.audioMsg n true) s).playing = (s.queue ++ [n]).head?) ∧
      ((stepS (SEvent.audioMsg n true) t).playing = some a ∧
        (stepS (SEvent.audioMsg n true) t).queue = t.queue ++ [n]) ∧
      ((stepS SEvent.srcEnded t).playing = some b ∧
        (stepS SEvent.srcEnded t).queue = rest ∧
        (stepS SEvent.srcEnded t).played = t.played ++ [b]) := by
  refine ⟨?_, ?_, ⟨?_, ?_⟩, ⟨?_, ?_, ?_⟩⟩
  · have h0 : sessAfterSpeak.played = [] ∧ sessAfterSpeak.queue = [] := by decide
    have h := foldQ_linear tr sessAfterSpeak
    rw [h0.1, h0.2] at h
    simpa [runQ] using h
  · cases hq : s.queue <;> simp [stepS, playNextAudio, hs, hq]
  · simp [stepS, ht1]
  · simp [stepS, ht1]
  · simp [stepS, playNextAudio, ht1, ht2]
  · simp [stepS, playNextAudio, ht1, ht2]
  · simp [stepS, playNextAudio, ht1, ht2]

/-- Witness for `playback_queue_fifo` on a concrete trace and concrete
states. -/
theorem playback_queue_fifo_witness :
    (sessAfterSpeak.playing = none ∧ sessPlayingW.playing = some 3 ∧
        sessPlayingW.queue = 4 :: []) ∧
      (((runQ [QEv.enq 5, QEv.enq 6, QEv.ended, QEv.ended]).played
            ++ (runQ [QEv.enq 5, QEv.enq 6, QEv.ended, QEv.ended]).queue
          = enqueuedOf [QEv.enq 5, QEv.enq 6, QEv.ended, QEv.ended]) ∧
        ((stepS (SEvent.audioMsg 7 true) sessAfterSpeak).playing
          = (sessAfterSpeak.queue ++ [7]).head?) ∧
        ((stepS (SEvent.audioMsg 7 true) sessPlayingW).playing = some 3 ∧
          (stepS (SEvent.audioMsg 7 true) sessPlayingW).queue = sessPlayingW.queue ++ [7]) ∧
        ((stepS SEvent.srcEnded sessPlayingW).playing = some 4 ∧
          (stepS SEvent.srcEnded sessPlayingW).queue = [] ∧
          (stepS SEvent.srcEnded sessPlayingW).played = sessPlayingW.played ++ [4])) :=
  ⟨⟨by decide, by decide, by decide⟩,
    playback_queue_fifo [QEv.enq 5, QEv.enq 6, QEv.ended, QEv.ended] sessAfterSpeak sessPlayingW
      7 3 4 [] (by decide) (by decide) (by decide)⟩

/-- C6 counterexample: `speak` on whitespace-only text returns
immediately with the skip outcome and an unchanged session — the async
function resolves as an ordinary success, no error is set and no
connection is opened, refuting "reports a failure to the caller rather
than completing as an ordinary success". -/
theorem speak_empty_text_resolves_success :
    speakStart cfgFull "   " SessState.fresh = (SpeakOutcome.skippedEmpty, SessState.fresh) ∧
      (speakStart cfgFull "   " SessState.fresh).2.errorMsg = none ∧
      (speakStart cfgFull "   " SessState.fresh).2.ws = WsConn.absent := by decide

/-- C6 (amended): for every input text that is empty after trimming,
`speak` returns immediately without opening a connection and without
setting any error: the call completes as an ordinary success (the
"skipping" early return), rather than reporting a failure. -/
theorem speak_empty_text_skips (cfg : Cfg) (text : String) (s : SessState)
    (h : jsTrim text = "") :
    speakStart cfg text s = (SpeakOutcome.skippedEmpty, s) := by
  unfold speakStart
  rw [if_pos h]

/-- Witness for `speak_empty_text_skips`. -/
theorem speak_empty_text_skips_witness :
    jsTrim " " = "" ∧ speakStart cfgFull " " SessState.fresh
      = (SpeakOutcome.skippedEmpty, SessState.fresh) :=
  ⟨by decide, speak_empty_text_skips cfgFull " " SessState.fresh (by decide)⟩

/-- C7 counterexample: after a final fragment "hello" at time 1000 the
silence timer is armed for 2500; an interim-only recognition result at
time 2000 clears the timer but does not restart it (the deadline becomes
`none`, not 3500), refuting "any new recognition result before the
interval elapses cancels and restarts the silence timer" — only final
fragments restart it. -/
theorem interim_result_cancels_without_restart :
    (onResult "hello" "" 1000 (startCapture 0)).silenceDeadline = some 2500 ∧
      (onResult "" "wor" 2000 (onResult "hello" "" 1000 (startCapture 0))).silenceDeadline
        = none ∧
      (onResult "" "wor" 2000 (onResult "hello" "" 1000 (startCapture 0))).silenceDeadline
        ≠ some 3500 := by
  decide

/-- C7 (amended): a capture session started at time 0 that receives one
final fragment "hello" at time `t` arms the silence timer for exactly
`t + 1500` and is unresolved until a timer fires; the silence timer's
firing (at its deadline) resolves the session with transcript "hello"
and releases the microphone and recognition (when `t + 1500 ≤ 15000`,
the silence timer is the first timer to fire, so resolution happens
exactly at `t + 1500`, not sooner and not later); a further final
fragment before the deadline cancels and restarts the timer, while an
interim-only result cancels it without restarting (resolution is then
postponed to a later final fragment or the 15s ceiling). -/
theorem silence_threshold_resolution (t t2 : Nat) :
    ((onResult "hello" "" t (startCapture 0)).silenceDeadline = some (t + 1500)) ∧
      ((onResult "hello" "" t (startCapture 0)).settled = none) ∧
      ((onResult "hello" "" t (startCapture 0)).finalTranscript = "hello ") ∧
      ((silenceFire (onResult "hello" "" t (startCapture 0))).settled
        = some (Except.ok "hello")) ∧
      ((silenceFire (onResult "hello" "" t (startCapture 0))).recActive = false) ∧
      ((silenceFire (onResult "hello" "" t (startCapture 0))).micOn = false) ∧
      ((onResult "there" "" t2 (onResult "hello" "" t (startCapture 0))).silenceDeadline
        = some (t2 + 1500)) ∧
      ((onResult "" "uh" t2 (onResult "hello" "" t (startCapture 0))).silenceDeadline
        = none) := by
  have hh : ¬(("hello" : String) = "") := by decide
  have hth : ¬(("there" : String) = "") := by decide
  have hje : ¬(jsTrim "hello " = "") := by decide
  have hjv : jsTrim "hello " = "hello" := by decide
  refine ⟨?_, ?_, ?_, ?_, ?_, ?_, ?_, ?_⟩ <;>
    simp [onResult, silenceFire, settleWith, startCapture, hh, hth, hje, hjv]

/-- C10: with the ElevenLabs API key (or voice id) missing, `speak` on
non-empty trimmed text takes the early-return path: the async call
resolves successfully having only reset the queue and closed-flag, set
the error signal and left `isSpeaking` false — no completion promise, no
WebSocket, no audio; at the orchestrator level the turn treats the
resolved `speak` as completed speech and proceeds to the cooldown (and
hence the next turn). -/
theorem speak_missing_config_soft_success (text : String) (s : SessState)
    (s2 : OrchState) (i : Nat)
    (h : jsTrim text ≠ "") (hq : s2.pcs.get? i = some TurnPc.awaitQuery)
    (ha : s2.isActive = true) :
    ((speakStart cfgNoKey text s).1 = SpeakOutcome.earlyReturn ∧
        (speakStart cfgNoKey text s).2
          = { s with wsClosed := false, queue := [],
                     errorMsg := some "ElevenLabs API key not found", isSpeaking := false }) ∧
      ((speakStart cfgNoVoice text s).1 = SpeakOutcome.earlyReturn ∧
        (speakStart cfgNoVoice text s).2
          = { s with wsClosed := false, queue := [],
                     errorMsg := some "ElevenLabs voice ID not found", isSpeaking := false }) ∧
      ((stepO cfgNoKey (OEvent.querySettle i (Except.ok text)) s2).pcs.get? i
          = some TurnPc.cooldown ∧
        (stepO cfgNoKey (OEvent.querySettle i (Except.ok text)) s2).phase = Phase.speaking ∧
        (stepO cfgNoKey (OEvent.querySettle i (Except.ok text)) s2).ss.pending = s2.ss.pending ∧
        (stepO cfgNoKey (OEvent.querySettle i (Except.ok text)) s2).ss.ws = s2.ss.ws ∧
        (stepO cfgNoKey (OEvent.querySettle i (Except.ok text)) s2).ss.played
          = s2.ss.played) := by
  have hlen : i < s2.pcs.length := (List.get?_eq_some.mp hq).1
  have hq2 : s2.pcs[i]? = some TurnPc.awaitQuery := by
    simpa [List.get?_eq_getElem?] using hq
  refine ⟨⟨?_, ?_⟩, ⟨?_, ?_⟩, ?_, ?_, ?_, ?_, ?_⟩ <;>
    simp [speakStart, stepO, setPc, setPhaseL, cfgNoKey, cfgNoVoice, h, hq, hq2, ha,
      List.getElem?_set_eq_of_lt _ hlen]

/-- Shape of `stopSpeaking`'s result: queue cleared, source stopped,
socket nulled, closed flag set, speaking and pending dropped; the
resolve counter grows only when a completion was pending. -/
theorem stopSpeakingFn_shape (x : SessState) :
    stopSpeakingFn x
      = { x with ws := WsConn.absent, playing := none, queue := [], wsClosed := true,
                 isSpeaking := false, pending := false,
                 resolved := if x.pending = true then x.resolved + 1 else x.resolved } := by
  by_cases hp : x.pending = true <;> simp [stopSpeakingFn, hp]

/-- Shape of a `stop()` call: liveness flag dropped, microphone and
recognition released, silence timer cleared, stream session stopped,
phase idle, transcription and error cleared; the only continuation
change is the finished awaited-speak invocation when its promise was
just resolved. -/
theorem stopCall_shape (cfg : Cfg) (s : OrchState) :
    stepO cfg OEvent.stopCall s
      = { phase := Phase.idle, isActive := false, transcription := "", errorMsg := none,
          micOn := false, recActive := false, silenceT := false,
          ss := stopSpeakingFn s.ss,
          pcs := if s.ss.pending = true then
                   (match s.pcs.findIdx? (fun p => p = TurnPc.awaitSpeak) with
                    | some j => s.pcs.set j TurnPc.finished
                    | none => s.pcs)
                 else s.pcs,
          phaseLog := if s.phase = Phase.idle then s.phaseLog
                      else s.phaseLog ++ [Phase.idle] } := by
  by_cases hp : s.ss.pending = true
  · cases hf : s.pcs.findIdx? (fun p => p = TurnPc.awaitSpeak) <;>
      simp [stepO, cleanupMicFn, setPhaseL, resumeSpeakOk, setPc, hp, hf]
  · simp [stepO, cleanupMicFn, setPhaseL, resumeSpeakOk, setPc, hp]

/-- Shape of `speak`'s synchronous prefix when it creates a session:
completion pending, speaking set, both timers armed, socket connecting,
closed flag and queue reset. -/
theorem speakStart_pending_shape (cfg : Cfg) (text : String) (x : SessState)
    (h : (speakStart cfg text x).1 = SpeakOutcome.sessionPending) :
    (speakStart cfg text x).2
      = { x with wsClosed := false, queue := [], errorMsg := none, isSpeaking := true,
                 pending := true, safetyT := true, connT := true,
                 ws := WsConn.connecting } := by
  by_cases ht : jsTrim text = ""
  · simp [speakStart, ht] at h
  · cases hk : cfg.apiKey with
    | none => simp [speakStart, ht, hk] at h
    | some k =>
        cases hv : cfg.voiceId with
        | none => simp [speakStart, ht, hk, hv] at h
        | some v => simp [speakStart, ht, hk, hv]

/-- Shape of `speak`'s synchronous prefix when it does not create a
session: pending, the timers, the socket, the player and the play
history are untouched, and `isSpeaking` ends up false. -/
theorem speakStart_early_shape (cfg : Cfg) (text : String) (x : SessState)
    (h : (speakStart cfg text x).1 ≠ SpeakOutcome.sessionPending) :
    (speakStart cfg text x).2.pending = x.pending ∧
      (speakStart cfg text x).2.isSpeaking = (decide (x.isSpeaking = true ∧ jsTrim text = "")) ∧
      (speakStart cfg text x).2.ws = x.ws ∧
      (speakStart cfg text x).2.played = x.played := by
  by_cases ht : jsTrim text = ""
  · simp [speakStart, ht]
  · cases hk : cfg.apiKey with
    | none => simp [speakStart, ht, hk]
    | some k =>
        cases hv : cfg.voiceId with
        | none => simp [speakStart, ht, hk, hv]
        | some v => simp [speakStart, ht, hk, hv] at h

/-- A found index of `findIdx?` holds an element satisfying the
predicate. -/
theorem get?_of_findIdx? {l : List TurnPc} {p : TurnPc → Bool} {i : Nat}
    (h : l.findIdx? p = some i) : ∃ a, l.get? i = some a ∧ p a = true := by
  rw [List.findIdx?_eq_some_iff_getElem] at h
  obtain ⟨hlt, hp, _⟩ := h
  exact ⟨l[i], by simp [List.get?_eq_getElem?, List.getElem?_eq_getElem hlt], hp⟩

/-- Replacing the unique live continuation preserves live-uniqueness,
whatever the replacement is. -/
theorem liveUnique_set {l : List TurnPc} {i : Nat} {x : TurnPc} (y : TurnPc)
    (hu : LiveUnique l) (hx : l.get? i = some x) (hxl : x.isDone = false) :
    LiveUnique (l.set i y) := by
  intro a b p q hap hbq hpl hql
  have ha : a = i := by
    by_contra hne
    rw [List.get?_set_ne _ _ (fun hh => hne hh.symm)] at hap
    exact hne (hu a i p x hap hx hpl hxl)
  have hb : b = i := by
    by_contra hne
    rw [List.get?_set_ne _ _ (fun hh => hne hh.symm)] at hbq
    exact hne (hu b i q x hbq hx hql hxl)
  rw [ha, hb]

/-- After replacing the unique live continuation by `y`, every recorded
continuation is `y` or finished. -/
theorem onlyPc_set {l : List TurnPc} {i : Nat} {x : TurnPc} (y : TurnPc)
    (hu : LiveUnique l) (hx : l.get? i = some x) (hxl : x.isDone = false) :
    OnlyPc y (l.set i y) := by
  intro j q hjq
  by_cases hji : j = i
  · subst hji
    have hlen : j < l.length := (List.get?_eq_some.mp hx).1
    rw [List.get?_set_eq_of_lt _ hlen] at hjq
    exact Or.inl (Option.some.inj hjq).symm
  · rw [List.get?_set_ne _ _ (fun hh => hji hh.symm)] at hjq
    by_cases hql : q.isDone = true
    · exact Or.inr hql
    · exact absurd (hu j i q x hjq hx (by simpa using hql) hxl) hji

/-- `OnlyPc` rules out a live continuation of a different kind. -/
theorem onlyPc_absurd {x : TurnPc} {l : List TurnPc} {i : Nat} {y : TurnPc}
    (h : OnlyPc x l) (hy : l.get? i = some y) (hne : y ≠ x) (hl : y.isDone = false) :
    False := by
  rcases h i y hy with h1 | h2
  · exact hne h1
  · rw [hl] at h2
    exact Bool.noConfusion h2

/-- Appending a fresh invocation to an all-finished list keeps at most
one live continuation. -/
theorem liveUnique_append_of_allDone {l : List TurnPc}
    (h : l.all (fun p => p.isDone) = true) (y : TurnPc) : LiveUnique (l ++ [y]) := by
  have key : ∀ c r, (l ++ [y]).get? c = some r → r.isDone = false → c = l.length := by
    intro c r hcr hrl
    by_cases hc : c < l.length
    · rw [List.get?_append hc] at hcr
      have hmem := List.all_eq_true.mp h r (List.get?_mem hcr)
      rw [hrl] at hmem
      exact absurd hmem (by simp)
    · have hc2 : l.length ≤ c := Nat.le_of_not_lt hc
      rw [List.get?_append_right hc2] at hcr
      cases hsub : c - l.length with
      | zero => omega
      | succ k =>
          rw [hsub] at hcr
          simp at hcr
  intro a b p q hap hbq hpl hql
  rw [key a p hap hpl, key b q hbq hql]

/-- `LiveUnique` is unaffected by replacing a live position by a
finished one even without knowing the old entry. -/
theorem liveUnique_set_finished {l : List TurnPc} (i : Nat)
    (hu : LiveUnique l) : LiveUnique (l.set i TurnPc.finished) := by
  intro a b p q hap hbq hpl hql
  have ha : a ≠ i → l.get? a = some p := fun hne => by
    rw [List.get?_set_ne _ _ (fun hh => hne hh.symm)] at hap
    exact hap
  have hb : b ≠ i → l.get? b = some q := fun hne => by
    rw [List.get?_set_ne _ _ (fun hh => hne hh.symm)] at hbq
    exact hbq
  by_cases hai : a = i
  · subst hai
    have hlen : a < l.length := by
      by_contra hge
      rw [List.get?_eq_none.mpr (by simpa [List.length_set] using Nat.le_of_not_lt hge)] at hap
      exact Option.noConfusion hap
    rw [List.get?_set_eq_of_lt _ hlen] at hap
    rw [← Option.some.inj hap] at hpl
    exact absurd hpl (by simp [TurnPc.isDone])
  · by_cases hbi : b = i
    · subst hbi
      have hlen : b < l.length := by
        by_contra hge
        rw [List.get?_eq_none.mpr (by simpa [List.length_set] using Nat.le_of_not_lt hge)] at hbq
        exact Option.noConfusion hbq
      rw [List.get?_set_eq_of_lt _ hlen] at hbq
      rw [← Option.some.inj hbq] at hql
      exact absurd hql (by simp [TurnPc.isDone])
    · exact hu a b p q (ha hai) (hb hbi) hpl hql

/-- Flag behaviour of the settlement check: it never raises `pending` or
`isSpeaking`, and when it settles a pending completion it also drops the
speaking flag. -/
theorem checkIfComplete_flags (x : SessState) :
    ((checkIfComplete x).pending = true → x.pending = true) ∧
      ((checkIfComplete x).isSpeaking = true → x.isSpeaking = true) ∧
      (x.pending = true → (checkIfComplete x).pending = false →
        (checkIfComplete x).isSpeaking = false) ∧
      ((checkIfComplete x).pending = true → (checkIfComplete x).isSpeaking = x.isSpeaking) := by
  unfold checkIfComplete
  split <;> simp_all

/-- Flag behaviour of `playNextAudio`: the completion and speaking flags
are untouched. -/
theorem playNextAudio_flags (x : SessState) :
    (playNextAudio x).pending = x.pending ∧ (playNextAudio x).isSpeaking = x.isSpeaking :=
  ⟨(playNextAudio_book x).1, (playNextAudio_book x).2.2.2⟩

/-- Flag facts for an event branch that changes neither the completion
nor the speaking flag. -/
theorem stepS_flags_id {x y : SessState} (hp : y.pending = x.pending)
    (hs : y.isSpeaking = x.isSpeaking) :
    (y.pending = true → x.pending = true) ∧
      (y.isSpeaking = true → x.isSpeaking = true) ∧
      (x.pending = true → y.pending = false → y.isSpeaking = false) ∧
      (y.pending = true → y.isSpeaking = x.isSpeaking) := by
  refine ⟨fun h => by rw [← hp]; exact h, fun h => by rw [← hs]; exact h,
    fun h1 h2 => ?_, fun _ => hs⟩
  rw [hp, h1] at h2
  exact Bool.noConfusion h2

/-- Flag behaviour of every stream-session event: no event raises
`pending` or `isSpeaking`; an event that settles a pending completion
leaves the speaking flag down; and an event that leaves the completion
pending leaves the speaking flag unchanged. -/
theorem stepS_flags (e : SEvent) (x : SessState) :
    ((stepS e x).pending = true → x.pending = true) ∧
      ((stepS e x).isSpeaking = true → x.isSpeaking = true) ∧
      (x.pending = true → (stepS e x).pending = false → (stepS e x).isSpeaking = false) ∧
      ((stepS e x).pending = true → (stepS e x).isSpeaking = x.isSpeaking) := by
  cases e with
  | wsOpenEvt =>
      cases hw : x.ws <;>
        exact stepS_flags_id (by simp [stepS, hw]) (by simp [stepS, hw])
  | audioMsg seg ok =>
      by_cases hok : ok = true
      · simp only [stepS, if_pos hok]
        split
        · exact stepS_flags_id
            (by simpa using (playNextAudio_flags { x with queue := x.queue ++ [seg] }).1)
            (by simpa using (playNextAudio_flags { x with queue := x.queue ++ [seg] }).2)
        · exact stepS_flags_id (by simp) (by simp)
      · simp only [stepS, if_neg hok]
        exact ⟨fun h => h, fun h => h,
          fun h1 h2 => by rw [h1] at h2; exact Bool.noConfusion h2, fun _ => trivial⟩
  | finalMsg => exact stepS_flags_id rfl rfl
  | wsErrorEvt =>
      simp only [stepS]
      split <;> simp_all
  | wsCloseEvt =>
      rcases checkIfComplete_flags
        { x with safetyT := false, connT := false, wsClosed := true, ws := WsConn.absent } with
        ⟨h1, h2, h3, h4⟩
      simp only [stepS]
      refine ⟨fun hh => by simpa using h1 hh, fun hh => by simpa using h2 hh,
        fun hpd hh => h3 (by simpa using hpd) hh, fun hh => by simpa using h4 hh⟩
  | srcEnded =>
      cases hp : x.playing with
      | none =>
          simp only [stepS, hp]
          exact ⟨fun h => h, fun h => h,
            fun h1 h2 => by rw [h1] at h2; exact Bool.noConfusion h2, fun _ => trivial⟩
      | some a =>
          simp only [stepS, hp]
          split
          · rcases checkIfComplete_flags { x with playing := none } with ⟨h1, h2, h3, h4⟩
            refine ⟨fun hh => by simpa using h1 hh, fun hh => by simpa using h2 hh,
              fun hpd hh => h3 (by simpa using hpd) hh, fun hh => by simpa using h4 hh⟩
          · exact stepS_flags_id
              (by simpa using (playNextAudio_flags { x with playing := none }).1)
              (by simpa using (playNextAudio_flags { x with playing := none }).2)
  | safetyFire =>
      simp only [stepS]
      split
      · split <;> simp_all
      · exact stepS_flags_id rfl rfl
  | connFire =>
      simp only [stepS]
      split
      · split
        · split <;> simp_all
        · exact stepS_flags_id (by simp) (by simp)
      · exact stepS_flags_id rfl rfl
  | stopSpeak =>
      rw [show stepS SEvent.stopSpeak x = stopSpeakingFn x from rfl, stopSpeakingFn_shape]
      simp

/-- The invariant survives a step that changes only phase,
transcription, error, log and continuations, given the continuation
obligations. -/
theorem exclInv_of_parts {s : OrchState} {pcs2 : List TurnPc}
    {ph : Phase} {tr2 : String} {er2 : Option String} {lg2 : List Phase}
    (h : ExclInv s)
    (hu2 : LiveUnique pcs2)
    (hcap2 : CaptureActive s → OnlyPc TurnPc.awaitCapture pcs2)
    (hstr2 : StreamActive s → OnlyPc TurnPc.awaitSpeak pcs2) :
    ExclInv { s with phase := ph, transcription := tr2, errorMsg := er2,
                     pcs := pcs2, phaseLog := lg2 } := by
  obtain ⟨hu, hcap, hstr, hpd, hact⟩ := h
  exact ⟨hu2,
    fun hca => ⟨hcap2 hca, (hcap hca).2.1, (hcap hca).2.2⟩,
    fun hsa => hstr2 hsa,
    fun hp => hpd hp,
    fun hia => hact hia⟩

/-- The invariant survives a step that additionally releases the
microphone (the `cleanupMic` prefix of every capture settlement). -/
theorem exclInv_of_parts_cleanup {s : OrchState} {pcs2 : List TurnPc}
    {ph : Phase} {tr2 : String} {er2 : Option String} {lg2 : List Phase}
    (h : ExclInv s)
    (hu2 : LiveUnique pcs2)
    (hstr2 : StreamActive s → OnlyPc TurnPc.awaitSpeak pcs2) :
    ExclInv { s with micOn := false, recActive := false, silenceT := false,
                     phase := ph, transcription := tr2, errorMsg := er2,
                     pcs := pcs2, phaseLog := lg2 } := by
  obtain ⟨hu, hcap, hstr, hpd, hact⟩ := h
  refine ⟨hu2, ?_, fun hsa => hstr2 hsa, fun hp => hpd hp,
    fun hia => ⟨rfl, rfl, (hact hia).2.2.1, (hact hia).2.2.2⟩⟩
  intro hca
  rcases hca with hh | hh <;> exact Bool.noConfusion hh

/-- The catch block preserves the invariant when neither session is
active at the failing point. -/
theorem exclInv_turnCatch (i : Nat) (msg : String) (s : OrchState) (x : TurnPc)
    (h : ExclInv s) (hx : s.pcs.get? i = some x) (hxl : x.isDone = false)
    (hcapF : ¬ CaptureActive s) (hstrF : ¬ StreamActive s) :
    ExclInv (turnCatch i msg s) := by
  obtain ⟨hu, hcap, hstr, hpd, hact⟩ := h
  unfold turnCatch
  by_cases hA : s.isActive = true
  · rw [if_pos hA]
    simp only [setPc, setPhaseL]
    exact exclInv_of_parts ⟨hu, hcap, hstr, hpd, hact⟩
      (liveUnique_set _ hu hx hxl)
      (fun hca => absurd hca hcapF)
      (fun hsa => absurd hsa hstrF)
  · rw [if_neg hA]
    simp only [setPc]
    exact exclInv_of_parts ⟨hu, hcap, hstr, hpd, hact⟩
      (liveUnique_set _ hu hx hxl)
      (fun hca => absurd hca hcapF)
      (fun hsa => absurd hsa hstrF)

/-- Entering a turn preserves the invariant when the woken continuation
is live and is neither the capture wait nor the speak wait. -/
theorem exclInv_enterTurn (i : Nat) (s : OrchState) (x : TurnPc)
    (h : ExclInv s) (hx : s.pcs.get? i = some x) (hxl : x.isDone = false)
    (hxc : x ≠ TurnPc.awaitCapture) (hxs : x ≠ TurnPc.awaitSpeak) :
    ExclInv (enterTurn i s) := by
  obtain ⟨hu, hcap, hstr, hpd, hact⟩ := h
  have hcapF : ¬ CaptureActive s := fun hca =>
    onlyPc_absurd (hcap hca).1 hx hxc hxl
  have hstrF : ¬ StreamActive s := fun hsa =>
    onlyPc_absurd (hstr hsa) hx hxs hxl
  unfold enterTurn
  by_cases hA : s.isActive = true
  · rw [if_neg (by simp [hA])]
    by_cases hS : s.ss.isSpeaking = true
    · rw [if_pos hS]
      exact absurd (Or.inr hS) hstrF
    · rw [if_neg hS]
      simp only [setPc, setPhaseL]
      refine ⟨liveUnique_set _ hu hx hxl, ?_, ?_, fun hp => hpd hp, ?_⟩
      · intro _
        refine ⟨onlyPc_set _ hu hx hxl, ?_, ?_⟩
        · by_cases hp : s.ss.pending = true
          · exact absurd (hpd hp) hS
          · simpa using hp
        · simpa using hS
      · intro hsa
        exact absurd hsa hstrF
      · intro hia
        rw [hA] at hia
        exact Bool.noConfusion hia
  · have hA2 : s.isActive = false := by simpa using hA
    rw [if_pos (by simp [hA2])]
    simp only [setPc]
    exact exclInv_of_parts ⟨hu, hcap, hstr, hpd, hact⟩
      (liveUnique_set _ hu hx hxl)
      (fun hca => absurd hca hcapF)
      (fun hsa => absurd hsa hstrF)

/-- `cleanupMic` preserves the invariant. -/
theorem exclInv_cleanup (s : OrchState) (h : ExclInv s) : ExclInv (cleanupMicFn s) := by
  obtain ⟨hu, hcap, hstr, hpd, hact⟩ := h
  refine ⟨hu, ?_, fun hsa => hstr hsa, fun hp => hpd hp,
    fun hia => ⟨rfl, rfl, (hact hia).2.2.1, (hact hia).2.2.2⟩⟩
  intro hca
  rcases hca with hh | hh <;> exact Bool.noConfusion hh

/-- Resuming the speak-awaiting continuation preserves the invariant
once the stream session has settled. -/
theorem exclInv_resume (s2 : OrchState) (msg : String) (hu2 : LiveUnique s2.pcs)
    (hcapF2 : ¬ CaptureActive s2) (hstrF2 : ¬ StreamActive s2)
    (hpd2 : s2.ss.pending = false) :
    ExclInv (resumeSpeakOk s2) ∧ ExclInv (resumeSpeakErr msg s2) := by
  have hmic : s2.micOn = false := by
    by_cases hh : s2.micOn = true
    · exact absurd (Or.inl hh) hcapF2
    · simpa using hh
  have hrec : s2.recActive = false := by
    by_cases hh : s2.recActive = true
    · exact absurd (Or.inr hh) hcapF2
    · simpa using hh
  have hsp : s2.ss.isSpeaking = false := by
    by_cases hh : s2.ss.isSpeaking = true
    · exact absurd (Or.inr hh) hstrF2
    · simpa using hh
  have base : ExclInv s2 :=
    ⟨hu2, fun hca => absurd hca hcapF2, fun hsa => absurd hsa hstrF2,
      fun hp => by rw [hpd2] at hp; exact Bool.noConfusion hp,
      fun _ => ⟨hmic, hrec, hpd2, hsp⟩⟩
  constructor
  · unfold resumeSpeakOk
    cases hf : s2.pcs.findIdx? (fun p => p = TurnPc.awaitSpeak) with
    | none => exact base
    | some j =>
        obtain ⟨a, hja, hpa⟩ := get?_of_findIdx? hf
        have hax : a = TurnPc.awaitSpeak := of_decide_eq_true hpa
        rw [hax] at hja
        show ExclInv (if s2.isActive = true then setPc j TurnPc.cooldown s2
          else setPc j TurnPc.finished s2)
        by_cases hA : s2.isActive = true
        · rw [if_pos hA]
          simp only [setPc]
          exact exclInv_of_parts base (liveUnique_set _ hu2 hja (by decide))
            (fun hca => absurd hca hcapF2) (fun hsa => absurd hsa hstrF2)
        · rw [if_neg hA]
          simp only [setPc]
          exact exclInv_of_parts base (liveUnique_set _ hu2 hja (by decide))
            (fun hca => absurd hca hcapF2) (fun hsa => absurd hsa hstrF2)
  · unfold resumeSpeakErr
    cases hf : s2.pcs.findIdx? (fun p => p = TurnPc.awaitSpeak) with
    | none => exact base
    | some j =>
        obtain ⟨a, hja, hpa⟩ := get?_of_findIdx? hf
        have hax : a = TurnPc.awaitSpeak := of_decide_eq_true hpa
        rw [hax] at hja
        exact exclInv_turnCatch j msg s2 _ base hja (by decide) hcapF2 hstrF2

/-- Every orchestrator event preserves the mutual-exclusion invariant,
provided `start()` is only called when every previous turn invocation
has returned. -/
theorem exclInv_step (cfg : Cfg) (e : OEvent) (s : OrchState) (h : ExclInv s)
    (hstart : e = OEvent.startCall → allDone s = true) : ExclInv (stepO cfg e s) := by
  obtain ⟨hu, hcap, hstr, hpd, hact⟩ := h
  cases e with
  | startCall =>
      by_cases hA : s.isActive = true
      · simp only [stepO, if_pos hA]
        exact ⟨hu, hcap, hstr, hpd, hact⟩
      · have hA2 : s.isActive = false := by simpa using hA
        have hAD : s.pcs.all (fun p => p.isDone) = true := hstart rfl
        simp only [stepO, if_neg hA, setPhaseL]
        refine ⟨liveUnique_append_of_allDone hAD _, ?_, ?_, fun hp => hpd hp, ?_⟩
        · intro hca
          rcases hca with hh | hh
          · rw [(hact hA2).1] at hh
            exact Bool.noConfusion hh
          · rw [(hact hA2).2.1] at hh
            exact Bool.noConfusion hh
        · intro hsa
          rcases hsa with hh | hh
          · rw [(hact hA2).2.2.1] at hh
            exact Bool.noConfusion hh
          · rw [(hact hA2).2.2.2] at hh
            exact Bool.noConfusion hh
        · intro hia
          exact Bool.noConfusion hia
  | stopCall =>
      rw [stopCall_shape]
      refine ⟨?_, ?_, ?_, ?_, ?_⟩
      · by_cases hp : s.ss.pending = true
        · rw [if_pos hp]
          cases hf : s.pcs.findIdx? (fun p => p = TurnPc.awaitSpeak) with
          | none => exact hu
          | some j => exact liveUnique_set_finished j hu
        · rw [if_neg hp]
          exact hu
      · intro hca
        rcases hca with hh | hh <;> exact Bool.noConfusion hh
      · intro hsa
        rcases hsa with hh | hh <;>
          · rw [stopSpeakingFn_shape] at hh
            simp at hh
      · intro hp
        rw [stopSpeakingFn_shape] at hp
        simp at hp
      · intro _
        refine ⟨rfl, rfl, ?_, ?_⟩ <;> simp [stopSpeakingFn_shape]
  | fireStartDelay i =>
      by_cases hg : s.pcs.get? i = some TurnPc.startDelay
      · simp only [stepO, if_pos hg]
        exact exclInv_enterTurn i s _ ⟨hu, hcap, hstr, hpd, hact⟩ hg (by decide)
          (by decide) (by decide)
      · simp only [stepO, if_neg hg]
        exact ⟨hu, hcap, hstr, hpd, hact⟩
  | fireRestart i =>
      by_cases hg : s.pcs.get? i = some TurnPc.restartDelay
      · simp only [stepO, if_pos hg]
        by_cases hA : s.isActive = true
        · rw [if_pos hA]
          exact exclInv_enterTurn i s _ ⟨hu, hcap, hstr, hpd, hact⟩ hg (by decide)
            (by decide) (by decide)
        · rw [if_neg hA]
          simp only [setPc]
          exact exclInv_of_parts ⟨hu, hcap, hstr, hpd, hact⟩
            (liveUnique_set _ hu hg (by decide))
            (fun hca => (onlyPc_absurd (hcap hca).1 hg (by decide) (by decide)).elim)
            (fun hsa => (onlyPc_absurd (hstr hsa) hg (by decide) (by decide)).elim)
      · simp only [stepO, if_neg hg]
        exact ⟨hu, hcap, hstr, hpd, hact⟩
  | fireErrorIdle i =>
      by_cases hg : s.pcs.get? i = some TurnPc.errorIdle
      · simp only [stepO, if_pos hg]
        by_cases hA : s.isActive = true
        · rw [if_pos hA]
          exact exclInv_enterTurn i s _ ⟨hu, hcap, hstr, hpd, hact⟩ hg (by decide)
            (by decide) (by decide)
        · rw [if_neg hA]
          simp only [setPc]
          exact exclInv_of_parts ⟨hu, hcap, hstr, hpd, hact⟩
            (liveUnique_set _ hu hg (by decide))
            (fun hca => (onlyPc_absurd (hcap hca).1 hg (by decide) (by decide)).elim)
            (fun hsa => (onlyPc_absurd (hstr hsa) hg (by decide) (by decide)).elim)
      · simp only [stepO, if_neg hg]
        exact ⟨hu, hcap, hstr, hpd, hact⟩
  | fireCooldown i =>
      by_cases hg : s.pcs.get? i = some TurnPc.cooldown
      · simp only [stepO, if_pos hg]
        by_cases hA : s.isActive = true
        · rw [if_pos hA]
          simp only [setPc, setPhaseL]
          exact exclInv_of_parts ⟨hu, hcap, hstr, hpd, hact⟩
            (liveUnique_set _ hu hg (by decide))
            (fun hca => (onlyPc_absurd (hcap hca).1 hg (by decide) (by decide)).elim)
            (fun hsa => (onlyPc_absurd (hstr hsa) hg (by decide) (by decide)).elim)
        · rw [if_neg hA]
          simp only [setPc]
          exact exclInv_of_parts ⟨hu, hcap, hstr, hpd, hact⟩
            (liveUnique_set _ hu hg (by decide))
            (fun hca => (onlyPc_absurd (hcap hca).1 hg (by decide) (by decide)).elim)
            (fun hsa => (onlyPc_absurd (hstr hsa) hg (by decide) (by decide)).elim)
      · simp only [stepO, if_neg hg]
        exact ⟨hu, hcap, hstr, hpd, hact⟩
  | fireErrorWait i =>
      by_cases hg : s.pcs.get? i = some TurnPc.errorWait
      · simp only [stepO, if_pos hg]
        by_cases hA : s.isActive = true
        · rw [if_pos hA]
          simp only [setPc, setPhaseL]
          exact exclInv_of_parts ⟨hu, hcap, hstr, hpd, hact⟩
            (liveUnique_set _ hu hg (by decide))
            (fun hca => (onlyPc_absurd (hcap hca).1 hg (by decide) (by decide)).elim)
            (fun hsa => (onlyPc_absurd (hstr hsa) hg (by decide) (by decide)).elim)
        · rw [if_neg hA]
          simp only [setPc]
          exact exclInv_of_parts ⟨hu, hcap, hstr, hpd, hact⟩
            (liveUnique_set _ hu hg (by decide))
            (fun hca => (onlyPc_absurd (hcap hca).1 hg (by decide) (by decide)).elim)
            (fun hsa => (onlyPc_absurd (hstr hsa) hg (by decide) (by decide)).elim)
      · simp only [stepO, if_neg hg]
        exact ⟨hu, hcap, hstr, hpd, hact⟩
  | capSettle i r =>
      by_cases hg : s.pcs.get? i = some TurnPc.awaitCapture
      · simp only [stepO, if_pos hg]
        have hstrF : ¬ StreamActive s := fun hsa =>
          onlyPc_absurd (hstr hsa) hg (by decide) (by decide)
        have hclean : ExclInv (cleanupMicFn s) := exclInv_cleanup s ⟨hu, hcap, hstr, hpd, hact⟩
        cases r with
        | ok txt =>
            by_cases hA : s.isActive = true
            · rw [if_pos (show (cleanupMicFn s).isActive = true from hA)]
              simp only [setPc, setPhaseL, cleanupMicFn]
              exact exclInv_of_parts_cleanup ⟨hu, hcap, hstr, hpd, hact⟩
                (liveUnique_set _ hu hg (by decide))
                (fun hsa => absurd hsa hstrF)
            · rw [if_neg (show ¬ (cleanupMicFn s).isActive = true from hA)]
              simp only [setPc, cleanupMicFn]
              exact exclInv_of_parts_cleanup ⟨hu, hcap, hstr, hpd, hact⟩
                (liveUnique_set _ hu hg (by decide))
                (fun hsa => absurd hsa hstrF)
        | error msg =>
            refine exclInv_turnCatch i msg (cleanupMicFn s) TurnPc.awaitCapture hclean
              hg (by decide) ?_ (fun hsa => hstrF hsa)
            intro hca
            rcases hca with hh | hh <;> exact Bool.noConfusion hh
      · simp only [stepO, if_neg hg]
        exact ⟨hu, hcap, hstr, hpd, hact⟩
  | querySettle i r =>
      by_cases hg : s.pcs.get? i = some TurnPc.awaitQuery
      · have hcapF : ¬ CaptureActive s := fun hca =>
          onlyPc_absurd (hcap hca).1 hg (by decide) (by decide)
        have hstrF : ¬ StreamActive s := fun hsa =>
          onlyPc_absurd (hstr hsa) hg (by decide) (by decide)
        cases r with
        | ok reply =>
            simp only [stepO, if_pos hg]
            by_cases hA : s.isActive = true
            · rw [if_pos hA]
              cases hsp : speakStart cfg reply (setPhaseL Phase.speaking s).ss with
              | mk o ss2 =>
                  cases o with
                  | sessionPending =>
                      have hss2 := speakStart_pending_shape cfg reply
                        (setPhaseL Phase.speaking s).ss (by rw [hsp])
                      rw [hsp] at hss2
                      rw [show (SpeakOutcome.sessionPending, ss2).2 = ss2 from rfl] at hss2
                      simp only [hsp, setPc, setPhaseL]
                      refine ⟨liveUnique_set _ hu hg (by decide), ?_, ?_, ?_, ?_⟩
                      · intro hca
                        exact absurd hca hcapF
                      · intro _
                        exact onlyPc_set _ hu hg (by decide)
                      · intro _
                        show ss2.isSpeaking = true
                        rw [hss2]
                      · intro hia
                        rw [hA] at hia
                        exact Bool.noConfusion hia
                  | skippedEmpty =>
                      have hsh := speakStart_early_shape cfg reply
                        (setPhaseL Phase.speaking s).ss
                        (by rw [hsp]; exact fun hc => SpeakOutcome.noConfusion hc)
                      rw [hsp] at hsh
                      simp only [hsp, setPc, setPhaseL]
                      refine ⟨liveUnique_set _ hu hg (by decide), ?_, ?_, ?_, ?_⟩
                      · intro hca
                        exact absurd hca hcapF
                      · intro hsa
                        rcases hsa with hh | hh
                        · rw [hsh.1] at hh
                          exact absurd (Or.inl hh) hstrF
                        · rw [hsh.2.1] at hh
                          have := of_decide_eq_true hh
                          exact absurd (Or.inr this.1) hstrF
                      · intro hp
                        rw [hsh.1] at hp
                        exact absurd (Or.inl hp) hstrF
                      · intro hia
                        rw [hA] at hia
                        exact Bool.noConfusion hia
                  | earlyReturn =>
                      have hsh := speakStart_early_shape cfg reply
                        (setPhaseL Phase.speaking s).ss
                        (by rw [hsp]; exact fun hc => SpeakOutcome.noConfusion hc)
                      rw [hsp] at hsh
                      simp only [hsp, setPc, setPhaseL]
                      refine ⟨liveUnique_set _ hu hg (by decide), ?_, ?_, ?_, ?_⟩
                      · intro hca
                        exact absurd hca hcapF
                      · intro hsa
                        rcases hsa with hh | hh
                        · rw [hsh.1] at hh
                          exact absurd (Or.inl hh) hstrF
                        · rw [hsh.2.1] at hh
                          have := of_decide_eq_true hh
                          exact absurd (Or.inr this.1) hstrF
                      · intro hp
                        rw [hsh.1] at hp
                        exact absurd (Or.inl hp) hstrF
                      · intro hia
                        rw [hA] at hia
                        exact Bool.noConfusion hia
            · rw [if_neg hA]
              simp only [setPc]
              exact exclInv_of_parts ⟨hu, hcap, hstr, hpd, hact⟩
                (liveUnique_set _ hu hg (by decide))
                (fun hca => absurd hca hcapF)
                (fun hsa => absurd hsa hstrF)
        | error msg =>
            simp only [stepO, if_pos hg]
            exact exclInv_turnCatch i msg s _ ⟨hu, hcap, hstr, hpd, hact⟩ hg (by decide)
              hcapF hstrF
      · simp only [stepO, if_neg hg]
        exact ⟨hu, hcap, hstr, hpd, hact⟩
  | sessEv ev =>
      simp only [stepO, stepSess]
      rcases stepS_flags ev s.ss with ⟨hf1, hf2, hf3, hf4⟩
      by_cases hsettle : (s.ss.pending && !(stepS ev s.ss).pending) = true
      · rw [if_pos hsettle]
        simp only [Bool.and_eq_true, Bool.not_eq_true'] at hsettle
        obtain ⟨hpdT, hpdN⟩ := hsettle
        have hspN : (stepS ev s.ss).isSpeaking = false := hf3 hpdT hpdN
        have hcapF2 : ¬ CaptureActive s := fun hca => by
          rw [(hcap hca).2.1] at hpdT
          exact Bool.noConfusion hpdT
        have hok := exclInv_resume { s with ss := stepS ev s.ss } (rejectMsgOf ev) hu
          (fun hca => hcapF2 hca)
          (fun hsa => by
            rcases hsa with hh | hh
            · rw [hpdN] at hh
              exact Bool.noConfusion hh
            · rw [hspN] at hh
              exact Bool.noConfusion hh)
          hpdN
        split
        · exact hok.1
        · exact hok.2
      · rw [if_neg hsettle]
        have hpdKeep : (stepS ev s.ss).pending = true → s.ss.pending = true := hf1
        refine ⟨hu, ?_, ?_, ?_, ?_⟩
        · intro hca
          have hbase := hcap hca
          refine ⟨hbase.1, ?_, ?_⟩
          · by_cases hh : (stepS ev s.ss).pending = true
            · rw [(hf1 hh)] at hbase
              exact absurd hbase.2.1 (by simp)
            · simpa using hh
          · by_cases hh : (stepS ev s.ss).isSpeaking = true
            · rw [(hf2 hh)] at hbase
              exact absurd hbase.2.2 (by simp)
            · simpa using hh
        · intro hsa
          rcases hsa with hh | hh
          · exact hstr (Or.inl (hf1 hh))
          · exact hstr (Or.inr (hf2 hh))
        · intro hp
          rw [hf4 hp]
          exact hpd (hf1 hp)
        · intro hia
          have hbase := hact hia
          refine ⟨hbase.1, hbase.2.1, ?_, ?_⟩
          · by_cases hh : (stepS ev s.ss).pending = true
            · rw [hf1 hh] at hbase
              exact absurd hbase.2.2.1 (by simp)
            · simpa using hh
          · by_cases hh : (stepS ev s.ss).isSpeaking = true
            · rw [hf2 hh] at hbase
              exact absurd hbase.2.2.2 (by simp)
            · simpa using hh

/-- The mutual-exclusion invariant holds in every state reachable under
single-loop discipline. -/
theorem exclInv_reach (cfg : Cfg) (s : OrchState) (h : ReachSL cfg s) : ExclInv s := by
  induction h with
  | base =>
      refine ⟨?_, ?_, ?_, ?_, ?_⟩
      · intro i j p q hp _ _ _
        simp [OrchState.fresh] at hp
      · intro hca
        rcases hca with hh | hh <;> simp [OrchState.fresh] at hh
      · intro hsa
        rcases hsa with hh | hh <;> simp [OrchState.fresh, SessState.fresh] at hh
      · intro hp
        simp [OrchState.fresh, SessState.fresh] at hp
      · intro _
        exact ⟨rfl, rfl, rfl, rfl⟩
  | step e s2 hr hst ih => exact exclInv_step cfg e s2 ih hst

/-- C3 counterexample: the restart race of `raceTrace` — a turn
suspended on the server query is stopped and restarted; the new turn's
capture session holds the microphone when the old turn's fetch resolves
and proceeds into `speak`.  The final state has an active capture
session and an active stream session simultaneously, refuting "in every
reachable state a capture session and a stream session are never
simultaneously active". -/
theorem capture_and_stream_simultaneously_active :
    CaptureActive (runO cfgFull raceTrace) ∧ StreamActive (runO cfgFull raceTrace) ∧
      (runO cfgFull raceTrace).micOn = true ∧ (runO cfgFull raceTrace).recActive = true ∧
      (runO cfgFull raceTrace).ss.pending = true ∧
      (runO cfgFull raceTrace).ss.isSpeaking = true ∧
      (runO cfgFull raceTrace).phase = Phase.speaking :=
  ⟨Or.inl (by decide), Or.inl (by decide), by decide, by decide, by decide, by decide,
    by decide⟩

/-- C3 (amended): while text-to-speech is active, starting to listen
fails immediately with the "Cannot listen while speaking" error, caught
by the turn's catch block (error phase), without touching the
microphone or recognition; and mutual exclusion of the capture and
stream sessions holds in every state reachable under single-loop
discipline — that is, when `start()` is only called after every
previous turn invocation has returned.  (Without that discipline the
race of the counterexample reaches a state where both sessions are
active.) -/
theorem listen_guard_and_single_loop_exclusion (cfg : Cfg) (s w : OrchState) (i : Nat)
    (hw1 : w.isActive = true) (hw2 : w.ss.isSpeaking = true)
    (hreach : ReachSL cfg s) :
    (enterTurn i w = turnCatch i "Cannot listen while speaking" w ∧
      (enterTurn i w).micOn = w.micOn ∧ (enterTurn i w).recActive = w.recActive ∧
      (enterTurn i w).phase = Phase.error) ∧
    ¬(CaptureActive s ∧ StreamActive s) := by
  constructor
  · have he : enterTurn i w = turnCatch i "Cannot listen while speaking" w := by
      unfold enterTurn
      rw [if_neg (by simp [hw1]), if_pos hw2]
    refine ⟨he, ?_, ?_, ?_⟩ <;>
      · rw [he]
        unfold turnCatch
        rw [if_pos hw1]
        simp [setPc, setPhaseL]
  · rintro ⟨hca, hsa⟩
    obtain ⟨hu, hcap, hstr, hpd, hact⟩ := exclInv_reach cfg s hreach
    rcases hsa with hh | hh
    · rw [(hcap hca).2.1] at hh
      exact Bool.noConfusion hh
    · rw [(hcap hca).2.2] at hh
      exact Bool.noConfusion hh

/-- Witness for `listen_guard_and_single_loop_exclusion` at the initial
state and a concrete speaking state. -/
theorem listen_guard_and_single_loop_exclusion_witness :
    (orchAwaitSpeakW.isActive = true ∧ orchAwaitSpeakW.ss.isSpeaking = true) ∧
      ((enterTurn 0 orchAwaitSpeakW
            = turnCatch 0 "Cannot listen while speaking" orchAwaitSpeakW ∧
          (enterTurn 0 orchAwaitSpeakW).micOn = orchAwaitSpeakW.micOn ∧
          (enterTurn 0 orchAwaitSpeakW).recActive = orchAwaitSpeakW.recActive ∧
          (enterTurn 0 orchAwaitSpeakW).phase = Phase.error) ∧
        ¬(CaptureActive OrchState.fresh ∧ StreamActive OrchState.fresh)) :=
  ⟨⟨by decide, by decide⟩,
    listen_guard_and_single_loop_exclusion cfgFull OrchState.fresh orchAwaitSpeakW 0
      (by decide) (by decide) ReachSL.base⟩

/-- A sleep-continuation firing after `stop()` (while the loop is
inactive) leaves the observable program state unchanged. -/
theorem obs_fireStartDelay_noop (cfg : Cfg) (i : Nat) (R : OrchState)
    (hA : R.isActive = false) :
    obsOf (stepO cfg (OEvent.fireStartDelay i) R) = obsOf R := by
  simp only [stepO]
  split
  · unfold enterTurn
    rw [if_pos (by simp [hA])]
    simp [obsOf, setPc]
  · rfl

/-- The cooldown continuation firing after `stop()` is observably a
no-op. -/
theorem obs_fireCooldown_noop (cfg : Cfg) (i : Nat) (R : OrchState)
    (hA : R.isActive = false) :
    obsOf (stepO cfg (OEvent.fireCooldown i) R) = obsOf R := by
  simp only [stepO]
  split
  · rw [if_neg (by simp [hA])]
    simp [obsOf, setPc]
  · rfl

/-- The restart-delay continuation firing after `stop()` is observably a
no-op. -/
theorem obs_fireRestart_noop (cfg : Cfg) (i : Nat) (R : OrchState)
    (hA : R.isActive = false) :
    obsOf (stepO cfg (OEvent.fireRestart i) R) = obsOf R := by
  simp only [stepO]
  split
  · rw [if_neg (by simp [hA])]
    simp [obsOf, setPc]
  · rfl

/-- The error-recovery continuation firing after `stop()` is observably
a no-op. -/
theorem obs_fireErrorWait_noop (cfg : Cfg) (i : Nat) (R : OrchState)
    (hA : R.isActive = false) :
    obsOf (stepO cfg (OEvent.fireErrorWait i) R) = obsOf R := by
  simp only [stepO]
  split
  · rw [if_neg (by simp [hA])]
    simp [obsOf, setPc]
  · rfl

/-- The post-error idle continuation firing after `stop()` is observably
a no-op. -/
theorem obs_fireErrorIdle_noop (cfg : Cfg) (i : Nat) (R : OrchState)
    (hA : R.isActive = false) :
    obsOf (stepO cfg (OEvent.fireErrorIdle i) R) = obsOf R := by
  simp only [stepO]
  split
  · rw [if_neg (by simp [hA])]
    simp [obsOf, setPc]
  · rfl

/-- The stream session's timers and close event firing on a stopped
session are observably no-ops. -/
theorem obs_sessTimers_noop (cfg : Cfg) (R : OrchState)
    (hpd : R.ss.pending = false) (hsp : R.ss.isSpeaking = false)
    (hws : R.ss.ws = WsConn.absent) (hcl : R.ss.wsClosed = true)
    (hq : R.ss.queue = []) (hpl : R.ss.playing = none) :
    obsOf (stepO cfg (OEvent.sessEv SEvent.safetyFire) R) = obsOf R ∧
      obsOf (stepO cfg (OEvent.sessEv SEvent.connFire) R) = obsOf R ∧
      obsOf (stepO cfg (OEvent.sessEv SEvent.wsCloseEvt) R) = obsOf R := by
  refine ⟨?_, ?_, ?_⟩
  · simp only [stepO, stepSess, stepS]
    by_cases hs : R.ss.safetyT = true <;> simp [hs, hpd, hsp, obsOf]
  · simp only [stepO, stepSess, stepS]
    by_cases hc : R.ss.connT = true <;> simp [hc, hws, hpd, obsOf]
  · simp only [stepO, stepSess, stepS, checkIfComplete]
    simp [hpd, hws, hcl, hq, hpl, obsOf]

/-- C5 counterexample: in a state where `speak` is in flight (reached by
a real trace), both the 30s safety timeout and the 5s connection
timeout are still scheduled after `stop()` returns — `stopSpeaking`
does not clear them — refuting "no pending timers". -/
theorem stop_leaves_timer_pending :
    midSpeakState.ss.safetyT = true ∧ midSpeakState.ss.connT = true ∧
      (stepO cfgFull OEvent.stopCall midSpeakState).ss.safetyT = true ∧
      (stepO cfgFull OEvent.stopCall midSpeakState).ss.connT = true ∧
      (stepO cfgFull OEvent.stopCall midSpeakState).phase = Phase.idle := by
  decide

/-- C5 (amended): calling `stop()` in any state leaves the system in
the idle phase with the loop inactive, the microphone and recognition
released, the silence timer cleared, the playback queue empty, nothing
playing, no pending completion, no open connection, and the displayed
transcription and error cleared; a second consecutive `stop()` is a
no-op; and although the capture ceiling, speak safety/connection
timeouts and loop sleeps may remain scheduled (see the counterexample),
firing any of them — or the closed socket's close event — in the
stopped state leaves the observable program state unchanged. -/
theorem stop_resets_and_is_idempotent (cfg : Cfg) (s : OrchState) (i : Nat) :
    ((stepO cfg OEvent.stopCall s).phase = Phase.idle ∧
      (stepO cfg OEvent.stopCall s).isActive = false ∧
      (stepO cfg OEvent.stopCall s).micOn = false ∧
      (stepO cfg OEvent.stopCall s).recActive = false ∧
      (stepO cfg OEvent.stopCall s).silenceT = false ∧
      (stepO cfg OEvent.stopCall s).transcription = "" ∧
      (stepO cfg OEvent.stopCall s).errorMsg = none ∧
      (stepO cfg OEvent.stopCall s).ss.queue = [] ∧
      (stepO cfg OEvent.stopCall s).ss.playing = none ∧
      (stepO cfg OEvent.stopCall s).ss.pending = false ∧
      (stepO cfg OEvent.stopCall s).ss.isSpeaking = false ∧
      (stepO cfg OEvent.stopCall s).ss.ws = WsConn.absent ∧
      (stepO cfg OEvent.stopCall s).ss.wsClosed = true) ∧
    (stepO cfg OEvent.stopCall (stepO cfg OEvent.stopCall s) = stepO cfg OEvent.stopCall s) ∧
    (obsOf (stepO cfg (OEvent.fireStartDelay i) (stepO cfg OEvent.stopCall s))
        = obsOf (stepO cfg OEvent.stopCall s) ∧
      obsOf (stepO cfg (OEvent.fireCooldown i) (stepO cfg OEvent.stopCall s))
        = obsOf (stepO cfg OEvent.stopCall s) ∧
      obsOf (stepO cfg (OEvent.fireRestart i) (stepO cfg OEvent.stopCall s))
        = obsOf (stepO cfg OEvent.stopCall s) ∧
      obsOf (stepO cfg (OEvent.fireErrorWait i) (stepO cfg OEvent.stopCall s))
        = obsOf (stepO cfg OEvent.stopCall s) ∧
      obsOf (stepO cfg (OEvent.fireErrorIdle i) (stepO cfg OEvent.stopCall s))
        = obsOf (stepO cfg OEvent.stopCall s) ∧
      obsOf (stepO cfg (OEvent.sessEv SEvent.safetyFire) (stepO cfg OEvent.stopCall s))
        = obsOf (stepO cfg OEvent.stopCall s) ∧
      obsOf (stepO cfg (OEvent.sessEv SEvent.connFire) (stepO cfg OEvent.stopCall s))
        = obsOf (stepO cfg OEvent.stopCall s) ∧
      obsOf (stepO cfg (OEvent.sessEv SEvent.wsCloseEvt) (stepO cfg OEvent.stopCall s))
        = obsOf (stepO cfg OEvent.stopCall s)) := by
  have hA : (stepO cfg OEvent.stopCall s).isActive = false := by
    rw [stopCall_shape]
  have hpd : (stepO cfg OEvent.stopCall s).ss.pending = false := by
    rw [stopCall_shape, stopSpeakingFn_shape]
  have hsp : (stepO cfg OEvent.stopCall s).ss.isSpeaking = false := by
    rw [stopCall_shape, stopSpeakingFn_shape]
  have hws : (stepO cfg OEvent.stopCall s).ss.ws = WsConn.absent := by
    rw [stopCall_shape, stopSpeakingFn_shape]
  have hcl : (stepO cfg OEvent.stopCall s).ss.wsClosed = true := by
    rw [stopCall_shape, stopSpeakingFn_shape]
  have hq : (stepO cfg OEvent.stopCall s).ss.queue = [] := by
    rw [stopCall_shape, stopSpeakingFn_shape]
  have hpl : (stepO cfg OEvent.stopCall s).ss.playing = none := by
    rw [stopCall_shape, stopSpeakingFn_shape]
  refine ⟨?_, ?_, ?_⟩
  · rw [stopCall_shape]
    simp [stopSpeakingFn_shape]
  · rw [stopCall_shape cfg (stepO cfg OEvent.stopCall s), stopCall_shape cfg s]
    simp [stopSpeakingFn_shape]
  · obtain ⟨hx, hy, hz⟩ := obs_sessTimers_noop cfg (stepO cfg OEvent.stopCall s)
      hpd hsp hws hcl hq hpl
    exact ⟨obs_fireStartDelay_noop cfg i _ hA, obs_fireCooldown_noop cfg i _ hA,
      obs_fireRestart_noop cfg i _ hA, obs_fireErrorWait_noop cfg i _ hA,
      obs_fireErrorIdle_noop cfg i _ hA, hx, hy, hz⟩

/-- C8 counterexample: in a fully successful turn (Scenario A) the
observable phase sequence is Listening, Thinking, Speaking, Idle,
Listening — `conversationTurn` sets the phase to idle for the restart
delay after the cooldown — refuting "the observed phase sequence is
exactly Listening, Thinking, Speaking, Listening ... with no other
phase observed in between". -/
theorem phase_log_has_idle_blip :
    (runO cfgFull (okTurnTrace "whats next" "You have a meeting at 3pm")).phaseLog
        = [Phase.listening, Phase.thinking, Phase.speaking, Phase.idle, Phase.listening] ∧
      (runO cfgFull (okTurnTrace "whats next" "You have a meeting at 3pm")).phaseLog
        ≠ [Phase.listening, Phase.thinking, Phase.speaking, Phase.listening] := by
  decide

/-- C8 (amended): in a fully successful turn — capture resolves, the
query returns a non-empty reply, the stream session receives two
segments and the terminal signal and both segments finish playing, then
the cooldown and restart delays elapse — the observed phase sequence is
exactly Listening, Thinking, Speaking, Idle, Listening: the
orchestrator passes through Idle (for the ~200ms restart delay after
the ~800ms cooldown) before re-entering Listening. -/
theorem successful_turn_phase_log (t r : String) (hr : jsTrim r ≠ "") :
    (runO cfgFull (okTurnTrace t r)).phaseLog
        = [Phase.listening, Phase.thinking, Phase.speaking, Phase.idle, Phase.listening] ∧
      (runO cfgFull (okTurnTrace t r)).phase = Phase.listening := by
  constructor <;>
    simp [runO, okTurnTrace, stepO, enterTurn, setPc, setPhaseL, turnCatch, cleanupMicFn,
      stepSess, stepS, resumeSpeakOk, resumeSpeakErr, speakStart, checkIfComplete,
      playNextAudio, stopSpeakingFn, cfgFull, hr, OrchState.fresh, SessState.fresh]

/-- Witness for `successful_turn_phase_log` at Scenario A's strings. -/
theorem successful_turn_phase_log_witness :
    jsTrim "You have a meeting at 3pm" ≠ "" ∧
      ((runO cfgFull (okTurnTrace "whats next" "You have a meeting at 3pm")).phaseLog
          = [Phase.listening, Phase.thinking, Phase.speaking, Phase.idle, Phase.listening] ∧
        (runO cfgFull (okTurnTrace "whats next" "You have a meeting at 3pm")).phase
          = Phase.listening) :=
  ⟨by decide,
    successful_turn_phase_log "whats next" "You have a meeting at 3pm" (by decide)⟩

/-- C9: every failure inside a turn is caught by `conversationTurn`'s
catch block and converted into the error phase with the failure's
message, parking the invocation on the 2s recovery delay — for capture
failures, query failures and speak rejections (socket error) alike; the
error phase is transient: the recovery delay and the 0.5s idle delay
then return the loop to listening; and if `stop()` is called during the
recovery delay, the delay's firing leaves the system idle and inactive
with the microphone off — the loop does not resume. -/
theorem turn_errors_caught_and_recovered (cfg : Cfg) (a b c d e2 : OrchState)
    (i : Nat) (m : String)
    (ha1 : a.pcs.get? i = some TurnPc.awaitCapture) (ha2 : a.isActive = true)
    (hb1 : b.pcs.get? i = some TurnPc.awaitQuery) (hb2 : b.isActive = true)
    (hc1 : c.pcs.findIdx? (fun p => p = TurnPc.awaitSpeak) = some i) (hc2 : c.isActive = true)
    (hc3 : c.ss.pending = true)
    (hd1 : d.pcs.get? i = some TurnPc.errorWait) (hd2 : d.isActive = true)
    (hd3 : d.ss.isSpeaking = false)
    (he1 : e2.pcs.get? i = some TurnPc.errorWait) (he2 : e2.ss.pending = false) :
    ((stepO cfg (OEvent.capSettle i (Except.error m)) a).phase = Phase.error ∧
      (stepO cfg (OEvent.capSettle i (Except.error m)) a).errorMsg = some m ∧
      (stepO cfg (OEvent.capSettle i (Except.error m)) a).pcs.get? i
        = some TurnPc.errorWait) ∧
    ((stepO cfg (OEvent.querySettle i (Except.error m)) b).phase = Phase.error ∧
      (stepO cfg (OEvent.querySettle i (Except.error m)) b).errorMsg = some m ∧
      (stepO cfg (OEvent.querySettle i (Except.error m)) b).pcs.get? i
        = some TurnPc.errorWait) ∧
    ((stepO cfg (OEvent.sessEv SEvent.wsErrorEvt) c).phase = Phase.error ∧
      (stepO cfg (OEvent.sessEv SEvent.wsErrorEvt) c).errorMsg = some "WebSocket error" ∧
      (stepO cfg (OEvent.sessEv SEvent.wsErrorEvt) c).pcs.get? i
        = some TurnPc.errorWait) ∧
    ((stepO cfg (OEvent.fireErrorWait i) d).phase = Phase.idle ∧
      (stepO cfg (OEvent.fireErrorWait i) d).errorMsg = none ∧
      (stepO cfg (OEvent.fireErrorIdle i) (stepO cfg (OEvent.fireErrorWait i) d)).phase
        = Phase.listening ∧
      (stepO cfg (OEvent.fireErrorIdle i) (stepO cfg (OEvent.fireErrorWait i) d)).micOn
        = true) ∧
    ((stepO cfg (OEvent.fireErrorWait i) (stepO cfg OEvent.stopCall e2)).phase
        = Phase.idle ∧
      (stepO cfg (OEvent.fireErrorWait i) (stepO cfg OEvent.stopCall e2)).micOn = false ∧
      (stepO cfg (OEvent.fireErrorWait i) (stepO cfg OEvent.stopCall e2)).isActive
        = false) := by
  have hlenA : i < a.pcs.length := (List.get?_eq_some.mp ha1).1
  have hlenB : i < b.pcs.length := (List.get?_eq_some.mp hb1).1
  have hlenC : i < c.pcs.length := by
    obtain ⟨x, hx, _⟩ := get?_of_findIdx? hc1
    exact (List.get?_eq_some.mp hx).1
  have hlenD : i < d.pcs.length := (List.get?_eq_some.mp hd1).1
  have ha1g : a.pcs[i]? = some TurnPc.awaitCapture := by
    simpa [List.get?_eq_getElem?] using ha1
  have hb1g : b.pcs[i]? = some TurnPc.awaitQuery := by
    simpa [List.get?_eq_getElem?] using hb1
  have hd1g : d.pcs[i]? = some TurnPc.errorWait := by
    simpa [List.get?_eq_getElem?] using hd1
  have he1g : e2.pcs[i]? = some TurnPc.errorWait := by
    simpa [List.get?_eq_getElem?] using he1
  refine ⟨?_, ?_, ?_, ?_, ?_⟩
  · refine ⟨?_, ?_, ?_⟩ <;>
      simp [stepO, ha1, ha1g, ha2, cleanupMicFn, turnCatch, setPc, setPhaseL,
        List.get?_eq_getElem?, List.getElem?_set_eq_of_lt _ hlenA]
  · refine ⟨?_, ?_, ?_⟩ <;>
      simp [stepO, hb1, hb1g, hb2, turnCatch, setPc, setPhaseL,
        List.get?_eq_getElem?, List.getElem?_set_eq_of_lt _ hlenB]
  · refine ⟨?_, ?_, ?_⟩ <;>
      simp [stepO, stepSess, stepS, resumeSpeakErr, rejectMsgOf, turnCatch, setPc,
        setPhaseL, hc1, hc2, hc3,
        List.get?_eq_getElem?, List.getElem?_set_eq_of_lt _ hlenC]
  · refine ⟨?_, ?_, ?_, ?_⟩ <;>
      simp [stepO, hd1, hd1g, hd2, hd3, enterTurn, turnCatch, setPc, setPhaseL,
        List.get?_eq_getElem?, List.getElem?_set_eq_of_lt _ hlenD]
  · rw [stopCall_shape cfg e2]
    refine ⟨?_, ?_, ?_⟩ <;>
      simp [stepO, he1, he1g, he2, setPc, setPhaseL,
        List.get?_eq_getElem?]

/-- Witness for `turn_errors_caught_and_recovered` at concrete states
for each failure site. -/
theorem turn_errors_caught_and_recovered_witness :
    (orchAwaitCaptureW.pcs.get? 0 = some TurnPc.awaitCapture ∧
        orchAwaitCaptureW.isActive = true ∧
        orchAwaitQueryW.pcs.get? 0 = some TurnPc.awaitQuery ∧
        orchAwaitQueryW.isActive = true ∧
        orchAwaitSpeakW.pcs.findIdx? (fun p => p = TurnPc.awaitSpeak) = some 0 ∧
        orchAwaitSpeakW.isActive = true ∧ orchAwaitSpeakW.ss.pending = true ∧
        orchErrorWaitW.pcs.get? 0 = some TurnPc.errorWait ∧
        orchErrorWaitW.isActive = true ∧ orchErrorWaitW.ss.isSpeaking = false ∧
        orchErrorWaitW.ss.pending = false) ∧
      (((stepO cfgFull (OEvent.capSettle 0 (Except.error "No speech detected"))
            orchAwaitCaptureW).phase = Phase.error ∧
          (stepO cfgFull (OEvent.capSettle 0 (Except.error "No speech detected"))
            orchAwaitCaptureW).errorMsg = some "No speech detected" ∧
          (stepO cfgFull (OEvent.capSettle 0 (Except.error "No speech detected"))
            orchAwaitCaptureW).pcs.get? 0 = some TurnPc.errorWait) ∧
        ((stepO cfgFull (OEvent.querySettle 0 (Except.error "No speech detected"))
            orchAwaitQueryW).phase = Phase.error ∧
          (stepO cfgFull (OEvent.querySettle 0 (Except.error "No speech detected"))
            orchAwaitQueryW).errorMsg = some "No speech detected" ∧
          (stepO cfgFull (OEvent.querySettle 0 (Except.error "No speech detected"))
            orchAwaitQueryW).pcs.get? 0 = some TurnPc.errorWait) ∧
        ((stepO cfgFull (OEvent.sessEv SEvent.wsErrorEvt) orchAwaitSpeakW).phase
            = Phase.error ∧
          (stepO cfgFull (OEvent.sessEv SEvent.wsErrorEvt) orchAwaitSpeakW).errorMsg
            = some "WebSocket error" ∧
          (stepO cfgFull (OEvent.sessEv SEvent.wsErrorEvt) orchAwaitSpeakW).pcs.get? 0
            = some TurnPc.errorWait) ∧
        ((stepO cfgFull (OEvent.fireErrorWait 0) orchErrorWaitW).phase = Phase.idle ∧
          (stepO cfgFull (OEvent.fireErrorWait 0) orchErrorWaitW).errorMsg = none ∧
          (stepO cfgFull (OEvent.fireErrorIdle 0)
              (stepO cfgFull (OEvent.fireErrorWait 0) orchErrorWaitW)).phase
            = Phase.listening ∧
          (stepO cfgFull (OEvent.fireErrorIdle 0)
              (stepO cfgFull (OEvent.fireErrorWait 0) orchErrorWaitW)).micOn = true) ∧
        ((stepO cfgFull (OEvent.fireErrorWait 0)
              (stepO cfgFull OEvent.stopCall orchErrorWaitW)).phase = Phase.idle ∧
          (stepO cfgFull (OEvent.fireErrorWait 0)
              (stepO cfgFull OEvent.stopCall orchErrorWaitW)).micOn = false ∧
          (stepO cfgFull (OEvent.fireErrorWait 0)
              (stepO cfgFull OEvent.stopCall orchErrorWaitW)).isActive = false)) :=
  ⟨⟨by decide, by decide, by decide, by decide, by decide, by decide, by decide,
      by decide, by decide, by decide, by decide⟩,
    turn_errors_caught_and_recovered cfgFull orchAwaitCaptureW orchAwaitQueryW
      orchAwaitSpeakW orchErrorWaitW orchErrorWaitW 0 "No speech detected"
      (by decide) (by decide) (by decide) (by decide) (by decide) (by decide) (by decide)
      (by decide) (by decide) (by decide) (by decide) (by decide)⟩

/-- Witness for `speak_missing_config_soft_success` at concrete inputs. -/
theorem speak_missing_config_soft_success_witness :
    (jsTrim "Hi there" ≠ "" ∧ orchAwaitQueryW.pcs.get? 0 = some TurnPc.awaitQuery ∧
        orchAwaitQueryW.isActive = true) ∧
      (((speakStart cfgNoKey "Hi there" SessState.fresh).1 = SpeakOutcome.earlyReturn ∧
          (speakStart cfgNoKey "Hi there" SessState.fresh).2
            = { SessState.fresh with
                wsClosed := false, queue := [],
                errorMsg := some "ElevenLabs API key not found", isSpeaking := false }) ∧
        ((speakStart cfgNoVoice "Hi there" SessState.fresh).1 = SpeakOutcome.earlyReturn ∧
          (speakStart cfgNoVoice "Hi there" SessState.fresh).2
            = { SessState.fresh with
                wsClosed := false, queue := [],
                errorMsg := some "ElevenLabs voice ID not found", isSpeaking := false }) ∧
        ((stepO cfgNoKey (OEvent.querySettle 0 (Except.ok "Hi there"))
              orchAwaitQueryW).pcs.get? 0 = some TurnPc.cooldown ∧
          (stepO cfgNoKey (OEvent.querySettle 0 (Except.ok "Hi there"))
              orchAwaitQueryW).phase = Phase.speaking ∧
          (stepO cfgNoKey (OEvent.querySettle 0 (Except.ok "Hi there"))
              orchAwaitQueryW).ss.pending = orchAwaitQueryW.ss.pending ∧
          (stepO cfgNoKey (OEvent.querySettle 0 (Except.ok "Hi there"))
              orchAwaitQueryW).ss.ws = orchAwaitQueryW.ss.ws ∧
          (stepO cfgNoKey (OEvent.querySettle 0 (Except.ok "Hi there"))
              orchAwaitQueryW).ss.played = orchAwaitQueryW.ss.played)) :=
  ⟨⟨by decide, by decide, by decide⟩,
    speak_missing_config_soft_success "Hi there" SessState.fresh orchAwaitQueryW 0
      (by decide) (by decide) (by decide)⟩
